import Mathlib

/-!
Verification development for the semantic-memory engine and its colocated
task/lock state machine.  The Python storage layer (sem_mem/storage.py), the
task store (memory_access/task_store.py with orm_models.py) and the ingestion
chunker (memory_access/ingest.py) are shallowly embedded as pure functions on
explicit database states; SQLite tables become lists, INSERT OR IGNORE becomes
a membership-checked append, a rolled-back transaction returns the original
state, and float vectors become exact rationals.
-/

set_option maxHeartbeats 1000000

deriving instance DecidableEq for Except

/-- Shared model of INSERT OR IGNORE into a table whose whole row is the
uniqueness key: append unless the row is already present. -/
def insertIg {α} [DecidableEq α] (l : List α) (a : α) : List α :=
  if a ∈ l then l else l ++ [a]

theorem insertIg_mem {α} [DecidableEq α] (l : List α) (a : α) : a ∈ insertIg l a := by
  unfold insertIg
  split
  · assumption
  · simp

theorem insertIg_mem_of_mem {α} [DecidableEq α] {l : List α} {b : α} (a : α)
    (h : b ∈ l) : b ∈ insertIg l a := by
  unfold insertIg
  split
  · exact h
  · simp [h]

theorem insertIg_of_mem {α} [DecidableEq α] {l : List α} {a : α} (h : a ∈ l) :
    insertIg l a = l := by
  simp [insertIg, h]

theorem foldl_insertIg_mem_of_mem {α} [DecidableEq α] (es : List α) (l : List α) {b : α}
    (h : b ∈ l) : b ∈ es.foldl insertIg l := by
  induction es generalizing l with
  | nil => exact h
  | cons e es ih => exact ih _ (insertIg_mem_of_mem e h)

theorem foldl_insertIg_mem {α} [DecidableEq α] {es : List α} {e : α} (l : List α)
    (h : e ∈ es) : e ∈ es.foldl insertIg l := by
  induction es generalizing l with
  | nil => cases h
  | cons x xs ih =>
    rcases List.mem_cons.1 h with rfl | hx
    · exact foldl_insertIg_mem_of_mem xs _ (insertIg_mem l e)
    · exact ih _ hx

theorem foldl_insertIg_of_subset {α} [DecidableEq α] {es : List α} {l : List α}
    (h : ∀ e ∈ es, e ∈ l) : es.foldl insertIg l = l := by
  induction es with
  | nil => rfl
  | cons e es ih =>
    have he : e ∈ l := h e (by simp)
    simp only [List.foldl_cons, insertIg_of_mem he]
    exact ih fun x hx => h x (by simp [hx])

namespace Py

/-- Whitespace characters removed by Python str.strip with no argument
(the ASCII subset; the repository's tag and resource strings are ASCII). -/
def isWS (c : Char) : Bool :=
  c = ' ' || c = '\t' || c = '\n' || c = '\r' || c = '\x0b' || c = '\x0c'

/-- Python str.strip on the underlying character list: drop the whitespace
run at both ends. -/
def stripChars (l : List Char) : List Char :=
  ((l.dropWhile isWS).reverse.dropWhile isWS).reverse

/-- Python str.strip. -/
def strip (s : String) : String := ⟨stripChars s.data⟩

/-- Python str.lower for the ASCII range covered by Char.toLower. -/
def lower (s : String) : String := ⟨s.data.map Char.toLower⟩

end Py

namespace SemMem

/-- Closed frame enumeration from sem_mem/models.py. -/
inductive Frame
  | causal | constraint | pattern | equivalence | taxonomy | procedure
deriving DecidableEq

/-- Stored string of a frame (Frame.value in models.py). -/
def Frame.value : Frame → String
  | .causal => "causal"
  | .constraint => "constraint"
  | .pattern => "pattern"
  | .equivalence => "equivalence"
  | .taxonomy => "taxonomy"
  | .procedure => "procedure"

/-- Insight payload from sem_mem/models.py; the optional id and timestamps of
the pydantic model are carried separately by the stored row. -/
structure Insight where
  text : String
  normalized_text : String
  frame : Frame
  domains : List String
  entities : List String
  problems : List String
  resolutions : List String
  contexts : List String
  confidence : ℚ
  source : String
deriving DecidableEq

/-- Normalization applied to every subject name: item.strip().lower(). -/
def normName (s : String) : String := Py.lower (Py.strip s)

/-- Deterministic subject id: str(uuid.uuid5(NAMESPACE_DNS, kind ++ ":" ++ name))
is a deterministic injective encoding of the pair, modelled as the pair itself. -/
abbrev SubjectId := String × String

/-- Subject id for a kind and an (already normalized) name. -/
def subjectId (kind name : String) : SubjectId := (kind, name)

/-- Escape of one character inside a JSON string literal as json.dumps emits it;
quote and backslash cover the repository's plain-ASCII tag values. -/
def jsonEscape (c : Char) : List Char :=
  if c = '"' then ['\\', '"'] else if c = '\\' then ['\\', '\\'] else [c]

/-- JSON string literal for s, as json.dumps renders it. -/
def jsonString (s : String) : String := ⟨'"' :: (s.data.flatMap jsonEscape ++ ['"'])⟩

/-- json.dumps of a list of strings, with the default ", " separator. -/
def jsonDumpsList (l : List String) : String :=
  ⟨'[' :: (List.intercalate [',', ' '] (l.map fun s => (jsonString s).data) ++ [']'])⟩

/-- Row of the insights table: the parsed column values plus the raw TEXT of
the domains column (the target of the SQL LIKE pre-filter) and the embedding
BLOB decoded to exact rationals. -/
structure InsightRow where
  id : String
  ins : Insight
  domainsText : String
  embedding : Option (List ℚ)
  created_at : String
  updated_at : String
deriving DecidableEq

/-- Database state of the insight store after initialize(): all migrated
tables exist.  insight_relations rows are (from_id, to_id, relation_type,
weight); subject_relations rows are (from_subject, to_subject, relation_type). -/
structure SemDB where
  insights : List InsightRow
  subjects : List SubjectId
  insight_subjects : List (String × SubjectId)
  subject_relations : List (SubjectId × SubjectId × String)
  insight_relations : List (String × String × String × ℚ)
deriving DecidableEq

/-- Tag kinds paired with their lists, in the order _upsert_subjects iterates. -/
def tagKinds (ins : Insight) : List (String × List String) :=
  [("domain", ins.domains), ("entity", ins.entities), ("problem", ins.problems),
   ("resolution", ins.resolutions), ("context", ins.contexts)]

/-- Body of the inner loop of _upsert_subjects: normalize the name, skip
empties, INSERT OR IGNORE the subject and the membership row. -/
def upsertTagItem (iid kind : String) (db : SemDB) (item : String) : SemDB :=
  let name := normName item
  if name = "" then db
  else
    let sid := subjectId kind name
    { db with subjects := insertIg db.subjects sid,
              insight_subjects := insertIg db.insight_subjects (iid, sid) }

/-- InsightStore._upsert_subjects: the two nested loops over kind/tag pairs. -/
def upsertSubjects (db : SemDB) (iid : String) (ins : Insight) : SemDB :=
  (tagKinds ins).foldl (fun db ki => ki.2.foldl (upsertTagItem iid ki.1) db) db

/-- Rule table of _auto_relate_subjects:
(from_kind, relation_type, to_kind, from_items, to_items). -/
def autoRules (ins : Insight) : List (String × String × String × List String × List String) :=
  [("context", "frames", "problem", ins.contexts, ins.problems),
   ("context", "applies_to", "domain", ins.contexts, ins.domains),
   ("context", "involves", "entity", ins.contexts, ins.entities),
   ("entity", "has_problem", "problem", ins.entities, ins.problems),
   ("problem", "solved_by", "resolution", ins.problems, ins.resolutions),
   ("resolution", "applies_to", "entity", ins.resolutions, ins.entities),
   ("domain", "scopes", "entity", ins.domains, ins.entities)]

/-- Edges emitted by the nested loops of _auto_relate_subjects: per rule the
Cartesian product of the two tag lists, skipping rules with an empty side and
names that normalize to the empty string. -/
def autoEdges (ins : Insight) : List (SubjectId × SubjectId × String) :=
  (autoRules ins).flatMap fun r =>
    if r.2.2.2.1 = [] ∨ r.2.2.2.2 = [] then []
    else r.2.2.2.1.flatMap fun fi =>
      let fromName := normName fi
      if fromName = "" then []
      else r.2.2.2.2.flatMap fun ti =>
        let toName := normName ti
        if toName = "" then []
        else [(subjectId r.1 fromName, subjectId r.2.2.1 toName, r.2.1)]

/-- InsightStore._auto_relate_subjects: INSERT OR IGNORE every rule edge. -/
def autoRelate (db : SemDB) (ins : Insight) : SemDB :=
  { db with subject_relations := (autoEdges ins).foldl insertIg db.subject_relations }

/-- Git parameters in the order _upsert_git_subjects iterates. -/
def gitParams (repo pr author project task : String) : List (String × String) :=
  [("repo", repo), ("pr", pr), ("person", author), ("project", project), ("task", task)]

/-- Assoc list playing the role of the subject_ids dict: one entry per
non-empty git parameter (the raw value is tested, the stored name is
normalized as in the source). -/
def gitSubjectIds (repo pr author project task : String) : List (String × SubjectId) :=
  (gitParams repo pr author project task).filterMap fun p =>
    if p.2 = "" then none else some (p.1, subjectId p.1 (normName p.2))

/-- Lookup in the subject_ids assoc list. -/
def gitLookup (sids : List (String × SubjectId)) (k : String) : Option SubjectId :=
  (sids.find? fun p => p.1 == k).map (·.2)

/-- Relations list built by _upsert_git_subjects, in source order; each entry
is (from_subject, to_subject, relation_type). -/
def gitRelations (ins : Insight) (sids : List (String × SubjectId)) :
    List (SubjectId × SubjectId × String) :=
  (match gitLookup sids "repo", gitLookup sids "project" with
   | some r, some p => [(r, p, "contains")]
   | _, _ => []) ++
  (match gitLookup sids "project", gitLookup sids "task" with
   | some p, some t => [(p, t, "contains")]
   | _, _ => []) ++
  (match gitLookup sids "task", gitLookup sids "pr" with
   | some t, some p => [(t, p, "produces")]
   | _, _ => []) ++
  (match gitLookup sids "person", gitLookup sids "pr" with
   | some a, some p => [(a, p, "authors")]
   | _, _ => []) ++
  (match gitLookup sids "person", gitLookup sids "project" with
   | some a, some p => [(a, p, "works_on")]
   | _, _ => []) ++
  (match gitLookup sids "pr" with
   | some p =>
     ins.resolutions.flatMap fun resName =>
       let nameLower := normName resName
       if nameLower = "" then []
       else [(subjectId "resolution" nameLower, p, "implemented_in")]
   | none => [])

/-- Body of the subject-upsert loop of _upsert_git_subjects. -/
def gitUpsertStep (iid : String) (db : SemDB) (p : String × SubjectId) : SemDB :=
  { db with subjects := insertIg db.subjects p.2,
            insight_subjects := insertIg db.insight_subjects (iid, p.2) }

/-- InsightStore._upsert_git_subjects: upsert the git-kind subjects and their
membership rows, then INSERT OR IGNORE the fixed git relations. -/
def upsertGitSubjects (db : SemDB) (iid : String) (ins : Insight)
    (repo pr author project task : String) : SemDB :=
  let sids := gitSubjectIds repo pr author project task
  let db := sids.foldl (gitUpsertStep iid) db
  { db with subject_relations := (gitRelations ins sids).foldl insertIg db.subject_relations }

/-- InsightStore.insert on an initialized store (the subjects and
subject_relations tables exist, so both maintenance passes run); iid is the
caller-supplied or freshly generated id and now the wall-clock timestamp. -/
def insert (db : SemDB) (iid : String) (ins : Insight) (embedding : Option (List ℚ))
    (repo pr author project task : String) (now : String) : SemDB :=
  let row : InsightRow :=
    { id := iid, ins := ins, domainsText := jsonDumpsList ins.domains,
      embedding := embedding, created_at := now, updated_at := now }
  let db := { db with insights := db.insights ++ [row] }
  let db := upsertSubjects db iid ins
  let db := autoRelate db ins
  if repo ≠ "" ∨ pr ≠ "" ∨ author ≠ "" ∨ project ≠ "" ∨ task ≠ "" then
    upsertGitSubjects db iid ins repo pr author project task
  else db

/-- InsightStore.get: parse the matching row back to an insight. -/
def get (db : SemDB) (iid : String) : Option Insight :=
  (db.insights.find? fun r => r.id == iid).map (·.ins)

/-- InsightStore.delete: DELETE FROM insights WHERE id = ?, returning
rowcount > 0.  The connection this method opens never issues
PRAGMA foreign_keys = ON (contrast delete_kb, which does), so SQLite leaves
the declared ON DELETE CASCADE references of insight_subjects and
insight_relations unenforced: only the insights table changes. -/
def delete (db : SemDB) (iid : String) : SemDB × Bool :=
  let remaining := db.insights.filter fun r => ¬ r.id == iid
  ({ db with insights := remaining }, remaining.length < db.insights.length)

/-- Dynamic value passed for one keyword argument of InsightStore.update. -/
inductive FieldVal
  | str : String → FieldVal
  | strList : List String → FieldVal
  | num : ℚ → FieldVal
  | frameVal : Frame → FieldVal
deriving DecidableEq

/-- Allowlist of updatable columns in InsightStore.update. -/
def allowedFields : List String :=
  ["text", "normalized_text", "frame", "domains", "entities", "problems",
   "resolutions", "contexts", "confidence", "source"]

/-- Parse of a stored frame string, as Frame(row) performs on read. -/
def frameOfString (s : String) : Option Frame :=
  if s = "causal" then some .causal
  else if s = "constraint" then some .constraint
  else if s = "pattern" then some .pattern
  else if s = "equivalence" then some .equivalence
  else if s = "taxonomy" then some .taxonomy
  else if s = "procedure" then some .procedure
  else none

/-- Application of one allowed update to the stored row.  List columns go
through json.dumps (the domains column keeps its raw text in sync); frame
accepts the enum or its string value.  A value whose shape does not fit the
column (SQLite stores it anyway under dynamic typing, and the read back fails
in pydantic) is outside every claim and leaves the row unchanged here. -/
def applyField (row : InsightRow) (k : String) (v : FieldVal) : InsightRow :=
  match k, v with
  | "text", .str s => { row with ins := { row.ins with text := s } }
  | "normalized_text", .str s => { row with ins := { row.ins with normalized_text := s } }
  | "frame", .frameVal f => { row with ins := { row.ins with frame := f } }
  | "frame", .str s =>
    match frameOfString s with
    | some f => { row with ins := { row.ins with frame := f } }
    | none => row
  | "domains", .strList l =>
    { row with ins := { row.ins with domains := l }, domainsText := jsonDumpsList l }
  | "entities", .strList l => { row with ins := { row.ins with entities := l } }
  | "problems", .strList l => { row with ins := { row.ins with problems := l } }
  | "resolutions", .strList l => { row with ins := { row.ins with resolutions := l } }
  | "contexts", .strList l => { row with ins := { row.ins with contexts := l } }
  | "confidence", .num q => { row with ins := { row.ins with confidence := q } }
  | "source", .str s => { row with ins := { row.ins with source := s } }
  | _, _ => row

/-- InsightStore.update: return none when the id is missing; otherwise filter
the keyword arguments down to the allowlist (keys outside it are dropped with
no error: the method has no failure outcome at all), return the existing
insight unchanged when nothing remains, else apply the updates plus updated_at
and re-read. -/
def update (db : SemDB) (iid : String) (kwargs : List (String × FieldVal))
    (now : String) : SemDB × Option Insight :=
  match db.insights.find? (fun r => r.id == iid) with
  | none => (db, none)
  | some existing =>
    let updates := kwargs.filter fun kv => kv.1 ∈ allowedFields
    if updates = [] then (db, some existing.ins)
    else
      let newRows := db.insights.map fun r =>
        if r.id == iid then
          { updates.foldl (fun r kv => applyField r kv.1 kv.2) r with updated_at := now }
        else r
      let db' := { db with insights := newRows }
      (db', get db' iid)

end SemMem

namespace SemMem

theorem filter_idem {α} (p : α → Bool) (l : List α) :
    (l.filter p).filter p = l.filter p := by
  induction l with
  | nil => rfl
  | cons a l ih =>
    by_cases h : p a
    · simp [List.filter_cons, h, ih]
    · simp [List.filter_cons, h, ih]

/-- Empty store state, as initialize() leaves a fresh database. -/
def emptyDB : SemDB :=
  { insights := [], subjects := [], insight_subjects := [],
    subject_relations := [], insight_relations := [] }

/-- Stored insight of the C1 failing input: a single domain tag. -/
def c1Ins : Insight :=
  { text := "uses node", normalized_text := "uses node", frame := .causal,
    domains := ["node"], entities := [], problems := [], resolutions := [],
    contexts := [], confidence := 1, source := "debug" }

/-- Store holding insight i1 (one distinct subject, hence one membership row)
plus an insight_relations row referencing i1, as migration 003 backfills. -/
def c1DB : SemDB :=
  { insert emptyDB "i1" c1Ins none "" "" "" "" "" "t0" with
    insight_relations := [("i1", "i2", "shared_subject", 1)] }

end SemMem

/-- C1: delete("i1") on c1DB returns true and a subsequent get returns none,
but the membership row and the insight-relation row referencing i1 survive:
the delete connection never enables foreign-key enforcement, so the declared
ON DELETE CASCADE does not fire and the insight_subjects count is unchanged
instead of dropping by the insight's distinct-subject count. -/
theorem c1_delete_skips_cascade :
    (SemMem.delete SemMem.c1DB "i1").2 = true
  ∧ SemMem.get (SemMem.delete SemMem.c1DB "i1").1 "i1" = none
  ∧ (SemMem.delete SemMem.c1DB "i1").1.insight_subjects
      = [("i1", ("domain", "node"))]
  ∧ (SemMem.delete SemMem.c1DB "i1").1.insight_relations
      = [("i1", "i2", "shared_subject", 1)] :=
  ⟨rfl, rfl, rfl, rfl⟩

namespace SemMem

/-- Stored insight of the C2 counterexample. -/
def c2Ins : Insight :=
  { text := "cache misses cause latency", normalized_text := "cache misses cause latency",
    frame := .causal, domains := ["perf"], entities := [], problems := [],
    resolutions := [], contexts := [], confidence := 1, source := "debug" }

/-- Store holding insight i1 for the C2 counterexample. -/
def c2DB : SemDB := insert emptyDB "i1" c2Ins none "" "" "" "" "" "t0"

end SemMem

/-- C2 counterexample: update with a field outside the allowlist returns
success (the stored insight, unchanged) and leaves the store untouched; no
InvalidField error is raised — the method's result has no failure outcome and
no InvalidField type exists anywhere in the source. -/
theorem c2_update_bogus_field_succeeds :
    SemMem.update SemMem.c2DB "i1" [("bogus", SemMem.FieldVal.str "x")] "t1"
      = (SemMem.c2DB, some SemMem.c2Ins) := rfl

/-- C2 (amended): update silently drops keyword arguments whose key is outside
the allowlist — the call behaves exactly as if they had not been passed — and
a call carrying only disallowed fields reports success, returning the stored
insight unchanged. -/
theorem c2_update_ignores_disallowed_fields :
    (∀ (db : SemMem.SemDB) iid kwargs now,
        SemMem.update db iid kwargs now =
          SemMem.update db iid
            (kwargs.filter fun kv => kv.1 ∈ SemMem.allowedFields) now)
  ∧ (∀ (db : SemMem.SemDB) iid kwargs now,
        (kwargs.filter fun kv => kv.1 ∈ SemMem.allowedFields) = [] →
        SemMem.update db iid kwargs now = (db, SemMem.get db iid)) := by
  constructor
  · intro db iid kwargs now
    unfold SemMem.update
    cases h : db.insights.find? fun r => r.id == iid with
    | none => rfl
    | some existing =>
      simp only [SemMem.filter_idem]
  · intro db iid kwargs now hnone
    unfold SemMem.update
    cases h : db.insights.find? fun r => r.id == iid with
    | none => simp [SemMem.get, h]
    | some existing => simp [hnone, SemMem.get, h]

/-- C2 witness: a call carrying only the disallowed field "bogus" on the
concrete store succeeds and returns the stored insight. -/
theorem c2_update_ignores_disallowed_fields_witness :
    SemMem.update SemMem.c2DB "i1" [("bogus", SemMem.FieldVal.str "x")] "t1"
      = (SemMem.c2DB, SemMem.get SemMem.c2DB "i1") :=
  c2_update_ignores_disallowed_fields.2 SemMem.c2DB "i1"
    [("bogus", SemMem.FieldVal.str "x")] "t1" (by decide)

namespace SemMem

theorem foldl_rel_preserve {β} (f : SemDB → β → SemDB)
    (hf : ∀ db b, (f db b).subject_relations = db.subject_relations) :
    ∀ (l : List β) (db : SemDB),
      (l.foldl f db).subject_relations = db.subject_relations := by
  intro l
  induction l with
  | nil => intro db; rfl
  | cons a l ih => intro db; rw [List.foldl_cons, ih, hf]

theorem upsertTagItem_rel (iid kind : String) (db : SemDB) (item : String) :
    (upsertTagItem iid kind db item).subject_relations = db.subject_relations := by
  unfold upsertTagItem
  by_cases h : normName item = "" <;> simp [h]

theorem upsertSubjects_rel (db : SemDB) (iid : String) (ins : Insight) :
    (upsertSubjects db iid ins).subject_relations = db.subject_relations := by
  unfold upsertSubjects
  exact foldl_rel_preserve (fun db ki => ki.2.foldl (upsertTagItem iid ki.1) db)
    (fun db ki => foldl_rel_preserve (upsertTagItem iid ki.1)
      (upsertTagItem_rel iid ki.1) ki.2 db)
    (tagKinds ins) db

/-- Explicit form of the subject_relations table after insert: the auto-rule
edges folded in first, then (when any git parameter is present) the git
relation edges. -/
theorem insert_rel_formula (db : SemDB) (iid : String) (ins : Insight)
    (emb : Option (List ℚ)) (repo pr author project task now : String) :
    (insert db iid ins emb repo pr author project task now).subject_relations =
      if repo ≠ "" ∨ pr ≠ "" ∨ author ≠ "" ∨ project ≠ "" ∨ task ≠ "" then
        (gitRelations ins (gitSubjectIds repo pr author project task)).foldl insertIg
          ((autoEdges ins).foldl insertIg db.subject_relations)
      else (autoEdges ins).foldl insertIg db.subject_relations := by
  unfold insert upsertGitSubjects autoRelate
  split
  · simp only [foldl_rel_preserve (gitUpsertStep iid) (fun _ _ => rfl),
      upsertSubjects_rel]
  · simp only [upsertSubjects_rel]

theorem mem_autoEdges {ins : Insight} {fk rt tk : String}
    {fis tis : List String} (hr : (fk, rt, tk, fis, tis) ∈ autoRules ins)
    {fi ti : String} (hfi : fi ∈ fis) (hti : ti ∈ tis)
    (hf : normName fi ≠ "") (ht : normName ti ≠ "") :
    (subjectId fk (normName fi), subjectId tk (normName ti), rt) ∈ autoEdges ins := by
  unfold autoEdges
  refine List.mem_flatMap.2 ⟨(fk, rt, tk, fis, tis), hr, ?_⟩
  have hne : ¬(fis = [] ∨ tis = []) := by
    rintro (h | h) <;> subst h
    · exact absurd hfi (List.not_mem_nil fi)
    · exact absurd hti (List.not_mem_nil ti)
  rw [if_neg hne]
  refine List.mem_flatMap.2 ⟨fi, hfi, ?_⟩
  dsimp only
  rw [if_neg hf]
  refine List.mem_flatMap.2 ⟨ti, hti, ?_⟩
  dsimp only
  rw [if_neg ht]
  simp

theorem insert_rel_mem_auto {db : SemDB} {iid : String} {ins : Insight}
    {emb : Option (List ℚ)} {repo pr author project task now : String}
    {e : SubjectId × SubjectId × String} (he : e ∈ autoEdges ins) :
    e ∈ (insert db iid ins emb repo pr author project task now).subject_relations := by
  rw [insert_rel_formula]
  split
  · exact foldl_insertIg_mem_of_mem _ _ (foldl_insertIg_mem _ he)
  · exact foldl_insertIg_mem _ he

theorem insert_rel_mem_git {db : SemDB} {iid : String} {ins : Insight}
    {emb : Option (List ℚ)} {repo pr author project task now : String}
    {e : SubjectId × SubjectId × String}
    (hcond : repo ≠ "" ∨ pr ≠ "" ∨ author ≠ "" ∨ project ≠ "" ∨ task ≠ "")
    (he : e ∈ gitRelations ins (gitSubjectIds repo pr author project task)) :
    e ∈ (insert db iid ins emb repo pr author project task now).subject_relations := by
  rw [insert_rel_formula, if_pos hcond]
  exact foldl_insertIg_mem _ he

theorem insert_twice_rel (db : SemDB) (iid iid2 : String) (ins : Insight)
    (emb emb2 : Option (List ℚ)) (repo pr author project task now now2 : String) :
    (insert (insert db iid ins emb repo pr author project task now)
        iid2 ins emb2 repo pr author project task now2).subject_relations
      = (insert db iid ins emb repo pr author project task now).subject_relations := by
  rw [insert_rel_formula (insert db iid ins emb repo pr author project task now)]
  by_cases hcond : repo ≠ "" ∨ pr ≠ "" ∨ author ≠ "" ∨ project ≠ "" ∨ task ≠ ""
  · rw [if_pos hcond]
    rw [foldl_insertIg_of_subset (fun e he => insert_rel_mem_auto he)]
    exact foldl_insertIg_of_subset (fun e he => insert_rel_mem_git hcond he)
  · rw [if_neg hcond]
    exact foldl_insertIg_of_subset (fun e he => insert_rel_mem_auto he)

/-- Insight of the spec's auto-relation scenario: two problems and three
resolutions. -/
def c8Ins : Insight :=
  { text := "leaks fixed by pooling", normalized_text := "leaks fixed by pooling",
    frame := .causal, domains := [], entities := [],
    problems := ["memory leak", "race condition"],
    resolutions := ["connection pooling", "mutex lock", "async queue"],
    contexts := [], confidence := 1, source := "debug" }

end SemMem

/-- C8: on every insert into an initialized store, each of the seven
auto-relation rules contributes a subject_relations edge for every pair in
the Cartesian product of its two tag lists (names stripped and lowercased,
empty names skipped, duplicates ignored by INSERT OR IGNORE), and repeating
the identical insert leaves subject_relations unchanged. -/
theorem c8_insert_auto_relations :
    (∀ (db : SemMem.SemDB) (iid : String) (ins : SemMem.Insight)
        (emb : Option (List ℚ)) (repo pr author project task now : String)
        (fk rt tk : String) (fis tis : List String),
        (fk, rt, tk, fis, tis) ∈ SemMem.autoRules ins →
        ∀ fi ∈ fis, ∀ ti ∈ tis,
        SemMem.normName fi ≠ "" → SemMem.normName ti ≠ "" →
        (SemMem.subjectId fk (SemMem.normName fi),
         SemMem.subjectId tk (SemMem.normName ti), rt)
          ∈ (SemMem.insert db iid ins emb repo pr author project task now).subject_relations)
  ∧ (∀ (db : SemMem.SemDB) (iid iid2 : String) (ins : SemMem.Insight)
        (emb emb2 : Option (List ℚ)) (repo pr author project task now now2 : String),
        (SemMem.insert (SemMem.insert db iid ins emb repo pr author project task now)
            iid2 ins emb2 repo pr author project task now2).subject_relations
          = (SemMem.insert db iid ins emb repo pr author project task now).subject_relations) :=
  ⟨fun _ _ _ _ _ _ _ _ _ _ _ _ _ _ _ hr _ hfi _ hti hf ht =>
    SemMem.insert_rel_mem_auto (SemMem.mem_autoEdges hr hfi hti hf ht),
   fun db iid iid2 ins emb emb2 repo pr author project task now now2 =>
    SemMem.insert_twice_rel db iid iid2 ins emb emb2 repo pr author project task now now2⟩

/-- C8 witness: inserting the two-problem three-resolution insight yields the
solved_by edge for the pair (memory leak, connection pooling). -/
theorem c8_insert_auto_relations_witness :
    (SemMem.subjectId "problem" (SemMem.normName "memory leak"),
     SemMem.subjectId "resolution" (SemMem.normName "connection pooling"), "solved_by")
      ∈ (SemMem.insert SemMem.emptyDB "i1" SemMem.c8Ins none "" "" "" "" "" "t0").subject_relations :=
  c8_insert_auto_relations.1 SemMem.emptyDB "i1" SemMem.c8Ins none "" "" "" "" "" "t0"
    "problem" "solved_by" "resolution"
    ["memory leak", "race condition"] ["connection pooling", "mutex lock", "async queue"]
    (by decide) "memory leak" (by decide) "connection pooling" (by decide)
    (by decide) (by decide)

namespace TaskCore

/-- Task lifecycle states (memory_access/models.py TaskState). -/
inductive TaskState
  | todo | in_progress | blocked | done | failed | canceled
deriving DecidableEq

/-- Row of the tasks table (orm_models.py TaskModel; retry_count and version
default to 0). -/
structure TaskRow where
  task_id : String
  title : String
  status : TaskState
  owner : String
  retry_count : Nat
  version : Nat
  created_at : String
  updated_at : String
deriving DecidableEq

/-- Row of the append-only task_events table; the JSON payload written by
_transition_sync carries from_state, to_state, reason and evidence, modelled
as fields. -/
structure TaskEvent where
  id : String
  task_id : String
  event_type : String
  actor : String
  payload_from : TaskState
  payload_to : TaskState
  payload_reason : String
  payload_evidence : String
  created_at : String
deriving DecidableEq

/-- Row of the task_locks table (orm_models.py TaskLockModel). -/
structure TaskLock where
  id : String
  task_id : String
  resource : String
  active : Bool
  created_at : String
deriving DecidableEq

/-- Task-machine portion of the shared database file. -/
structure TaskDB where
  tasks : List TaskRow
  task_dependencies : List (String × String)
  task_locks : List TaskLock
  task_events : List TaskEvent
deriving DecidableEq

/-- Typed errors of memory_access/task_store.py. -/
inductive TaskErr
  | taskNotFound | invalidTransition | dependencyNotMet | lockConflict
  | concurrencyConflict
deriving DecidableEq

/-- Modelled from the spec: the exhaustive state-transition table of §4.7,
enforced by a DB-level construct whose DDL lives in the storage module's task
migration, which is not under src/ (task_store.py only maps its
"invalid task state transition" message to InvalidTransition). -/
def allowedTransition : TaskState → TaskState → Bool
  | .todo, .in_progress => true
  | .todo, .canceled => true
  | .in_progress, .done => true
  | .in_progress, .failed => true
  | .in_progress, .blocked => true
  | .in_progress, .canceled => true
  | .blocked, .todo => true
  | .blocked, .canceled => true
  | .failed, .todo => true
  | .failed, .canceled => true
  | _, _ => false

/-- Modelled from the spec: "an in_progress transition requires every declared
dependency to be done", raised by the DB trigger whose DDL is not under src/
(task_store.py only maps its "task dependencies not complete" message to
DependencyNotMet).  A dependency row whose target task is missing counts as
not done. -/
def depsIncomplete (db : TaskDB) (tid : String) : Bool :=
  db.task_dependencies.any fun d =>
    d.1 == tid && !(db.tasks.any fun r => r.task_id == d.2 && r.status == TaskState.done)

/-- Modelled from the spec: path-prefix overlap of two lock resources —
A == B, or one string starts with the other followed by "/". -/
def resourceOverlap (a b : String) : Bool :=
  a == b || (b.data ++ ['/']).isPrefixOf a.data || (a.data ++ ['/']).isPrefixOf b.data

/-- Modelled from the spec: DB-level insert into task_locks; an active row
that path-prefix-overlaps an active row of a different task violates the
partial unique index / check trigger (DDL not under src/) and raises
IntegrityError; any inactive row, and any non-overlapping active row, is
appended. -/
def dbInsertLock (db : TaskDB) (l : TaskLock) : Except Unit TaskDB :=
  if l.active && db.task_locks.any (fun e =>
      e.active && e.task_id != l.task_id && resourceOverlap e.resource l.resource) then
    Except.error ()
  else
    Except.ok { db with task_locks := db.task_locks ++ [l] }

/-- Loop body of TaskStore._assign_locks_sync: skip empty resources, create
each lock row active with a fresh uuid (supplied through ids), surface the
first IntegrityError as LockConflict; there is no enclosing transaction, so
rows created before the conflict remain (the state is threaded through). -/
def assignLocksGo (db : TaskDB) (taskId : String) :
    List String → List String → String → TaskDB × Except TaskErr (List String)
  | [], _, _ => (db, Except.ok [])
  | r :: rest, ids, now =>
    if r = "" then assignLocksGo db taskId rest ids now
    else
      let lid := ids.headD ""
      match dbInsertLock db ⟨lid, taskId, r, true, now⟩ with
      | Except.error _ => (db, Except.error TaskErr.lockConflict)
      | Except.ok db' =>
        match assignLocksGo db' taskId rest ids.tail now with
        | (dbf, Except.ok ls) => (dbf, Except.ok (lid :: ls))
        | (dbf, Except.error e) => (dbf, Except.error e)

/-- TaskStore.assign_locks with the nondeterministic uuid4 lock ids passed in
explicitly. -/
def assignLocks (db : TaskDB) (taskId : String) (resources ids : List String)
    (now : String) : TaskDB × Except TaskErr (List String) :=
  assignLocksGo db taskId resources ids now

/-- TaskStore._create_task_sync: a new row enters as todo with version 0 and
retry_count 0; a duplicate task_id violates the primary key (IntegrityError). -/
def createTask (db : TaskDB) (taskId title owner now : String) :
    Except Unit (TaskDB × TaskRow) :=
  if db.tasks.any fun r => r.task_id == taskId then Except.error ()
  else
    let row : TaskRow :=
      { task_id := taskId, title := title, status := TaskState.todo, owner := owner,
        retry_count := 0, version := 0, created_at := now, updated_at := now }
    Except.ok ({ db with tasks := db.tasks ++ [row] }, row)

/-- TaskStore._add_dependencies_sync: skip empty ids, insert with
on_conflict_ignore. -/
def addDependencies (db : TaskDB) (taskId : String) (depIds : List String) : TaskDB :=
  { db with task_dependencies := depIds.foldl (fun deps d =>
      if d = "" then deps else insertIg deps (taskId, d)) db.task_dependencies }

/-- Modelled from the spec: release sets active = false on all locks owned by
the task in a single UPDATE and returns the affected count (release_locks is
called by the tests but its body is not under src/). -/
def releaseLocks (db : TaskDB) (taskId : String) : TaskDB × Nat :=
  ({ db with task_locks := db.task_locks.map fun l =>
      if l.task_id == taskId && l.active then { l with active := false } else l },
   (db.task_locks.filter fun l => l.task_id == taskId && l.active).length)

/-- CAS predicate of the transition UPDATE:
WHERE task_id = ? AND status = ? AND version = ?. -/
def casMatch (taskId : String) (fromState : TaskState) (expectedVersion : Nat)
    (r : TaskRow) : Bool :=
  r.task_id == taskId && r.status == fromState && r.version == expectedVersion

/-- SET clause of the transition UPDATE: the new status, retry_count + 1
exactly when the new status is blocked (CASE WHEN ? = 'blocked'), version + 1,
and the new updated_at. -/
def applyCas (toState : TaskState) (now : String) (r : TaskRow) : TaskRow :=
  { r with status := toState,
           retry_count := if toState == TaskState.blocked then r.retry_count + 1
                          else r.retry_count,
           version := r.version + 1,
           updated_at := now }

/-- TaskStore._transition_sync: one BEGIN IMMEDIATE transaction holding the
CAS update, the error discrimination by re-read when rowcount is not 1, the
DB-level transition-table and dependency triggers (modelled from the spec:
their DDL is not under src/), and the task_events append; every error path
rolls back, so the returned state is the original one. -/
def transition (db : TaskDB) (taskId : String) (fromState toState : TaskState)
    (actor reason evidence : String) (expectedVersion : Nat) (eventId now : String) :
    TaskDB × Except TaskErr (TaskRow × String) :=
  let matched := db.tasks.filter (casMatch taskId fromState expectedVersion)
  if matched.length ≠ 1 then
    match db.tasks.find? (fun r => r.task_id == taskId) with
    | none => (db, Except.error TaskErr.taskNotFound)
    | some r =>
      if r.version ≠ expectedVersion then (db, Except.error TaskErr.concurrencyConflict)
      else (db, Except.error TaskErr.invalidTransition)
  else
    if ¬ allowedTransition fromState toState then
      (db, Except.error TaskErr.invalidTransition)
    else if toState == TaskState.in_progress && depsIncomplete db taskId then
      (db, Except.error TaskErr.dependencyNotMet)
    else
      let newTasks := db.tasks.map fun r =>
        if casMatch taskId fromState expectedVersion r then applyCas toState now r else r
      let ev : TaskEvent :=
        { id := eventId, task_id := taskId, event_type := "state_transition",
          actor := actor, payload_from := fromState, payload_to := toState,
          payload_reason := reason, payload_evidence := evidence, created_at := now }
      match newTasks.find? (fun r => r.task_id == taskId) with
      | none => (db, Except.error TaskErr.taskNotFound)
      | some row =>
        ({ db with tasks := newTasks, task_events := db.task_events ++ [ev] },
         Except.ok (row, eventId))

end TaskCore

namespace TaskCore

theorem casMatch_task_id {tid : String} {f : TaskState} {v : Nat} {r : TaskRow}
    (h : casMatch tid f v r = true) : (r.task_id == tid) = true := by
  simp only [casMatch, Bool.and_eq_true] at h
  exact h.1.1

theorem find?_map_of_pred {α} (g : α → α) (q : α → Bool) (hg : ∀ x, q (g x) = q x) :
    ∀ l : List α, (l.map g).find? q = (l.find? q).map g := by
  intro l
  induction l with
  | nil => rfl
  | cons a l ih =>
    by_cases h : q a = true
    · rw [List.map_cons, List.find?_cons_of_pos _ ((hg a).trans h),
        List.find?_cons_of_pos _ h, Option.map_some']
    · rw [List.map_cons,
        List.find?_cons_of_neg _ (by rw [hg a]; exact h),
        List.find?_cons_of_neg _ h, ih]

theorem transition_success {db : TaskDB} {tid : String} {f t : TaskState}
    (a re ev : String) {v : Nat} (eid now : String)
    (hmatch : (db.tasks.filter (casMatch tid f v)).length = 1)
    (hallow : allowedTransition f t = true)
    (hdep : t = TaskState.in_progress → depsIncomplete db tid = false) :
    ∃ row,
      (db.tasks.map fun r => if casMatch tid f v r then applyCas t now r else r).find?
          (fun r => r.task_id == tid) = some row
      ∧ transition db tid f t a re ev v eid now
          = ({ db with
                tasks := db.tasks.map fun r =>
                  if casMatch tid f v r then applyCas t now r else r,
                task_events := db.task_events ++
                  [{ id := eid, task_id := tid, event_type := "state_transition",
                     actor := a, payload_from := f, payload_to := t,
                     payload_reason := re, payload_evidence := ev, created_at := now }] },
             Except.ok (row, eid)) := by
  have hne : db.tasks.filter (casMatch tid f v) ≠ [] := by
    intro h
    rw [h] at hmatch
    simp at hmatch
  obtain ⟨x, hx⟩ := List.exists_mem_of_ne_nil _ hne
  have hxmem := (List.mem_filter.1 hx).1
  have hxcas := (List.mem_filter.1 hx).2
  have hq : ((db.tasks.map fun r =>
      if casMatch tid f v r then applyCas t now r else r).find?
      (fun r => r.task_id == tid)).isSome := by
    rw [List.find?_isSome]
    refine ⟨if casMatch tid f v x then applyCas t now x else x,
      List.mem_map_of_mem _ hxmem, ?_⟩
    rw [if_pos hxcas]
    show (x.task_id == tid) = true
    exact casMatch_task_id hxcas
  obtain ⟨row, hrow⟩ := Option.isSome_iff_exists.1 hq
  refine ⟨row, hrow, ?_⟩
  have hcond : (t == TaskState.in_progress && depsIncomplete db tid) = false := by
    cases h : t == TaskState.in_progress with
    | false => rfl
    | true => simp [hdep (by exact beq_iff_eq.1 h)]
  unfold transition
  simp only [hmatch, hallow, hcond, hrow]
  simp

end TaskCore

namespace TaskCore

theorem transition_zero (db : TaskDB) (tid : String) (f t : TaskState)
    (a re ev : String) (v : Nat) (eid now : String)
    (hzero : (db.tasks.filter (casMatch tid f v)).length = 0) :
    transition db tid f t a re ev v eid now
      = (db, match db.tasks.find? (fun r => r.task_id == tid) with
          | none => Except.error TaskErr.taskNotFound
          | some r =>
            if r.version ≠ v then Except.error TaskErr.concurrencyConflict
            else Except.error TaskErr.invalidTransition) := by
  unfold transition
  simp only [hzero]
  rw [if_pos (by decide)]
  cases h : db.tasks.find? (fun r => r.task_id == tid) with
  | none => rfl
  | some r =>
    dsimp only
    by_cases hv : r.version ≠ v
    · rw [if_pos hv, if_pos hv]
    · rw [if_neg hv, if_neg hv]

/-- Concrete blocked task pinning down the retry_count rule. -/
def c7Row : TaskRow :=
  { task_id := "t", title := "retry probe", status := TaskState.blocked, owner := "",
    retry_count := 3, version := 5, created_at := "c", updated_at := "u" }

/-- One-task store for the C7 counterexample. -/
def c7DB : TaskDB :=
  { tasks := [c7Row], task_dependencies := [], task_locks := [], task_events := [] }

/-- Concrete in-progress task for the C7 witness. -/
def c7wRow : TaskRow :=
  { task_id := "t7", title := "retry witness", status := TaskState.in_progress, owner := "",
    retry_count := 0, version := 2, created_at := "c", updated_at := "u" }

/-- One-task store for the C7 witness. -/
def c7wDB : TaskDB :=
  { tasks := [c7wRow], task_dependencies := [], task_locks := [], task_events := [] }

/-- Concrete todo task for the C5 witness. -/
def c5Row : TaskRow :=
  { task_id := "t5", title := "demo", status := TaskState.todo, owner := "",
    retry_count := 0, version := 0, created_at := "c", updated_at := "c" }

/-- One-task store for the C5 witness. -/
def c5DB : TaskDB :=
  { tasks := [c5Row], task_dependencies := [], task_locks := [], task_events := [] }

end TaskCore

/-- C5: a transition whose CAS matches exactly one row and passes the
transition-table and dependency gates commits, in one transaction, the row
update (version + 1 on the matched row, task_id preserved) together with one
appended task_events row of type state_transition carrying the same task_id
and the from/to states; and every error outcome returns the original state
(rollback), so either both changes land or neither does. -/
theorem c5_transition_version_and_event :
    (∀ (db : TaskCore.TaskDB) (tid : String) (f t : TaskCore.TaskState)
        (a re ev : String) (v : Nat) (eid now : String),
        (db.tasks.filter (TaskCore.casMatch tid f v)).length = 1 →
        TaskCore.allowedTransition f t = true →
        (t = TaskCore.TaskState.in_progress → TaskCore.depsIncomplete db tid = false) →
        ∃ row,
          TaskCore.transition db tid f t a re ev v eid now
            = ({ db with
                  tasks := db.tasks.map fun r =>
                    if TaskCore.casMatch tid f v r then TaskCore.applyCas t now r else r,
                  task_events := db.task_events ++
                    [{ id := eid, task_id := tid, event_type := "state_transition",
                       actor := a, payload_from := f, payload_to := t,
                       payload_reason := re, payload_evidence := ev, created_at := now }] },
               Except.ok (row, eid))
          ∧ ∀ r ∈ db.tasks, TaskCore.casMatch tid f v r = true →
              (TaskCore.applyCas t now r).version = r.version + 1
              ∧ (TaskCore.applyCas t now r).task_id = r.task_id)
  ∧ (∀ (db : TaskCore.TaskDB) (tid : String) (f t : TaskCore.TaskState)
        (a re ev : String) (v : Nat) (eid now : String) (e : TaskCore.TaskErr),
        (TaskCore.transition db tid f t a re ev v eid now).2 = Except.error e →
        (TaskCore.transition db tid f t a re ev v eid now).1 = db) := by
  constructor
  · intro db tid f t a re ev v eid now hm ha hd
    obtain ⟨row, _, heq⟩ := TaskCore.transition_success a re ev eid now hm ha hd
    exact ⟨row, heq, fun r _ _ => ⟨rfl, rfl⟩⟩
  · intro db tid f t a re ev v eid now e
    unfold TaskCore.transition
    dsimp only
    split
    · split
      · intro _; rfl
      · split
        · intro _; rfl
        · intro _; rfl
    · split
      · intro _; rfl
      · split
        · intro _; rfl
        · split
          · intro _; rfl
          · intro h
            simp at h

/-- C5 witness: the todo task t5 at version 0 transitions to in_progress,
landing the updated row and the state_transition event together. -/
theorem c5_transition_version_and_event_witness :
    ∃ row,
      TaskCore.transition TaskCore.c5DB "t5" TaskCore.TaskState.todo
          TaskCore.TaskState.in_progress "orchestrator" "" "" 0 "e5" "n5"
        = ({ TaskCore.c5DB with
              tasks := TaskCore.c5DB.tasks.map fun r =>
                if TaskCore.casMatch "t5" TaskCore.TaskState.todo 0 r then
                  TaskCore.applyCas TaskCore.TaskState.in_progress "n5" r
                else r,
              task_events := TaskCore.c5DB.task_events ++
                [{ id := "e5", task_id := "t5", event_type := "state_transition",
                   actor := "orchestrator",
                   payload_from := TaskCore.TaskState.todo,
                   payload_to := TaskCore.TaskState.in_progress,
                   payload_reason := "", payload_evidence := "", created_at := "n5" }] },
           Except.ok (row, "e5"))
      ∧ ∀ r ∈ TaskCore.c5DB.tasks, TaskCore.casMatch "t5" TaskCore.TaskState.todo 0 r = true →
          (TaskCore.applyCas TaskCore.TaskState.in_progress "n5" r).version = r.version + 1
          ∧ (TaskCore.applyCas TaskCore.TaskState.in_progress "n5" r).task_id = r.task_id :=
  c5_transition_version_and_event.1 TaskCore.c5DB "t5" TaskCore.TaskState.todo
    TaskCore.TaskState.in_progress "orchestrator" "" "" 0 "e5" "n5"
    (by decide) (by decide) (fun _ => by decide)

/-- C6: when the CAS UPDATE matches zero rows, the error is determined by
re-reading the row — missing row gives TaskNotFound, version mismatch gives
ConcurrencyConflict, and otherwise InvalidTransition (where the status
necessarily differs from the expected from-state) — and in every case the
returned state is the original one: tasks and task_events are unchanged. -/
theorem c6_zero_rowcount_discrimination (db : TaskCore.TaskDB) (tid : String)
    (f t : TaskCore.TaskState) (a re ev : String) (v : Nat) (eid now : String)
    (hzero : (db.tasks.filter (TaskCore.casMatch tid f v)).length = 0) :
    ((TaskCore.transition db tid f t a re ev v eid now).1 = db)
  ∧ (db.tasks.find? (fun r => r.task_id == tid) = none →
      (TaskCore.transition db tid f t a re ev v eid now).2
        = Except.error TaskCore.TaskErr.taskNotFound)
  ∧ (∀ r, db.tasks.find? (fun r => r.task_id == tid) = some r → r.version ≠ v →
      (TaskCore.transition db tid f t a re ev v eid now).2
        = Except.error TaskCore.TaskErr.concurrencyConflict)
  ∧ (∀ r, db.tasks.find? (fun r => r.task_id == tid) = some r → r.version = v →
      (TaskCore.transition db tid f t a re ev v eid now).2
        = Except.error TaskCore.TaskErr.invalidTransition ∧ r.status ≠ f) := by
  have heval := TaskCore.transition_zero db tid f t a re ev v eid now hzero
  refine ⟨by rw [heval], ?_, ?_, ?_⟩
  · intro hfind
    rw [heval, hfind]
  · intro r hfind hv
    rw [heval, hfind]
    dsimp only
    rw [if_pos hv]
  · intro r hfind hv
    constructor
    · rw [heval, hfind]
      dsimp only
      rw [if_neg (by simp [hv])]
    · intro hstat
      have hmem := List.mem_of_find?_eq_some hfind
      have hpred := List.find?_some hfind
      have hcas : TaskCore.casMatch tid f v r = true := by
        simp only [TaskCore.casMatch, Bool.and_eq_true, beq_iff_eq]
        exact ⟨⟨beq_iff_eq.1 hpred, hstat⟩, hv⟩
      have hmemf : r ∈ db.tasks.filter (TaskCore.casMatch tid f v) :=
        List.mem_filter.2 ⟨hmem, hcas⟩
      rw [List.length_eq_zero] at hzero
      rw [hzero] at hmemf
      exact absurd hmemf (List.not_mem_nil r)

/-- C6 witness: on a store holding only task tx at version 0 in todo, a CAS
for task tx expecting from-state done at version 0 matches zero rows and is
refused as InvalidTransition with the state unchanged, the re-read row's
status differing from the expected from-state. -/
theorem c6_zero_rowcount_discrimination_witness :
    (TaskCore.transition TaskCore.c5DB "t5" TaskCore.TaskState.done
        TaskCore.TaskState.canceled "orchestrator" "" "" 0 "e6" "n6").1 = TaskCore.c5DB
  ∧ (TaskCore.transition TaskCore.c5DB "t5" TaskCore.TaskState.done
        TaskCore.TaskState.canceled "orchestrator" "" "" 0 "e6" "n6").2
      = Except.error TaskCore.TaskErr.invalidTransition
  ∧ TaskCore.c5Row.status ≠ TaskCore.TaskState.done := by
  have h := c6_zero_rowcount_discrimination TaskCore.c5DB "t5" TaskCore.TaskState.done
    TaskCore.TaskState.canceled "orchestrator" "" "" 0 "e6" "n6" (by decide)
  have h4 := h.2.2.2 TaskCore.c5Row (by decide) (by decide)
  exact ⟨h.1, h4.1, h4.2⟩

/-- Row expected after the C7 counterexample transition: status and version
advance, retry_count stays at 3. -/
def c7AfterRow : TaskCore.TaskRow :=
  { TaskCore.c7Row with
      status := TaskCore.TaskState.todo,
      version := 6,
      updated_at := "n1" }

/-- C7 counterexample: the blocked task at retry_count 3 transitions
blocked → todo successfully, yet the resulting retry_count is still 3 rather
than 4 — the SQL CASE increments only when the NEW status is blocked, not on
the blocked→todo path the claim names. -/
theorem c7_blocked_to_todo_keeps_retry :
    (TaskCore.transition TaskCore.c7DB "t" TaskCore.TaskState.blocked
        TaskCore.TaskState.todo "orchestrator" "" "" 5 "e1" "n1").2
      = Except.ok (c7AfterRow, "e1")
  ∧ c7AfterRow.retry_count ≠ TaskCore.c7Row.retry_count + 1 := by
  constructor
  · rfl
  · decide

/-- C7 (amended): on every successful transition the new retry_count equals
the old one plus one exactly when the to-state is blocked (the in_progress →
blocked edge) and is unchanged on every other transition — in particular
blocked → todo and failed → todo leave it unchanged. -/
theorem c7_retry_increment_rule (db : TaskCore.TaskDB) (tid : String)
    (f t : TaskCore.TaskState) (a re ev : String) (v : Nat) (eid now : String)
    (r : TaskCore.TaskRow)
    (hfind : db.tasks.find? (fun x => x.task_id == tid) = some r)
    (hcas : TaskCore.casMatch tid f v r = true)
    (hmatch : (db.tasks.filter (TaskCore.casMatch tid f v)).length = 1)
    (hallow : TaskCore.allowedTransition f t = true)
    (hdep : t = TaskCore.TaskState.in_progress → TaskCore.depsIncomplete db tid = false) :
    (TaskCore.transition db tid f t a re ev v eid now).2
      = Except.ok (TaskCore.applyCas t now r, eid)
  ∧ (TaskCore.applyCas t now r).retry_count
      = r.retry_count + (if t = TaskCore.TaskState.blocked then 1 else 0) := by
  obtain ⟨row, hrow, heq⟩ := TaskCore.transition_success a re ev eid now hmatch hallow hdep
  have hg : ∀ x : TaskCore.TaskRow,
      ((if TaskCore.casMatch tid f v x then TaskCore.applyCas t now x else x).task_id == tid)
        = (x.task_id == tid) := by
    intro x
    by_cases hx : TaskCore.casMatch tid f v x = true
    · rw [if_pos hx]; rfl
    · rw [if_neg hx]
  have hmap := TaskCore.find?_map_of_pred
    (fun x => if TaskCore.casMatch tid f v x then TaskCore.applyCas t now x else x)
    (fun x => x.task_id == tid) hg db.tasks
  rw [hmap, hfind, Option.map_some'] at hrow
  rw [if_pos hcas] at hrow
  have hroweq : row = TaskCore.applyCas t now r := (Option.some.injEq _ _ ▸ hrow).symm
  constructor
  · rw [heq, hroweq]
  · show (if (t == TaskCore.TaskState.blocked) = true then r.retry_count + 1
      else r.retry_count) = r.retry_count + (if t = TaskCore.TaskState.blocked then 1 else 0)
    by_cases hb : t = TaskCore.TaskState.blocked
    · rw [if_pos hb, if_pos (by rw [hb]; rfl)]
    · rw [if_neg hb, if_neg (by simpa using hb), Nat.add_zero]

/-- C7 witness: the in-progress task t7 at version 2 transitions
in_progress → blocked and its retry_count goes from 0 to 1. -/
theorem c7_retry_increment_rule_witness :
    (TaskCore.transition TaskCore.c7wDB "t7" TaskCore.TaskState.in_progress
        TaskCore.TaskState.blocked "orchestrator" "" "" 2 "e7" "n7").2
      = Except.ok (TaskCore.applyCas TaskCore.TaskState.blocked "n7" TaskCore.c7wRow, "e7")
  ∧ (TaskCore.applyCas TaskCore.TaskState.blocked "n7" TaskCore.c7wRow).retry_count
      = TaskCore.c7wRow.retry_count
        + (if TaskCore.TaskState.blocked = TaskCore.TaskState.blocked then 1 else 0) :=
  c7_retry_increment_rule TaskCore.c7wDB "t7" TaskCore.TaskState.in_progress
    TaskCore.TaskState.blocked "orchestrator" "" "" 2 "e7" "n7" TaskCore.c7wRow
    (by decide) (by decide) (by decide) (by decide) (fun h => by cases h)

theorem mem_of_insertIg {α} [DecidableEq α] {l : List α} {a x : α}
    (h : x ∈ insertIg l a) : x ∈ l ∨ x = a := by
  unfold insertIg at h
  split at h
  · exact Or.inl h
  · rcases List.mem_append.1 h with h | h
    · exact Or.inl h
    · exact Or.inr (List.mem_singleton.1 h)

namespace TaskCore

/-- Fresh task database, as the task migration leaves it. -/
def emptyTaskDB : TaskDB :=
  { tasks := [], task_dependencies := [], task_locks := [], task_events := [] }

/-- States reachable through the task store's operations (every operation
returns its resulting state; error outcomes return the original state, which
is already reachable). -/
inductive Reachable : TaskDB → Prop
  | empty : Reachable emptyTaskDB
  | create {db db' : TaskDB} {tid title owner now : String} {row : TaskRow} :
      Reachable db → createTask db tid title owner now = Except.ok (db', row) →
      Reachable db'
  | addDeps {db : TaskDB} {tid : String} {deps : List String} :
      Reachable db → Reachable (addDependencies db tid deps)
  | trans {db : TaskDB} {tid : String} {f t : TaskState} {a re ev : String}
      {v : Nat} {eid now : String} :
      Reachable db → Reachable (transition db tid f t a re ev v eid now).1
  | locks {db : TaskDB} {tid : String} {resources ids : List String} {now : String} :
      Reachable db → Reachable (assignLocks db tid resources ids now).1
  | release {db : TaskDB} {tid : String} :
      Reachable db → Reachable (releaseLocks db tid).1
  | rawLock {db db' : TaskDB} {l : TaskLock} :
      Reachable db → dbInsertLock db l = Except.ok db' → Reachable db'

/-- Invariant 3 of the spec: active locks of distinct tasks never overlap by
path prefix. -/
def LockInvariant (db : TaskDB) : Prop :=
  ∀ l1 ∈ db.task_locks, ∀ l2 ∈ db.task_locks,
    l1.active = true → l2.active = true → l1.task_id ≠ l2.task_id →
      resourceOverlap l1.resource l2.resource = false

theorem beq_symm_str (a b : String) : (a == b) = (b == a) := by
  by_cases h : a = b
  · rw [h]
  · rw [beq_eq_false_iff_ne.2 h, beq_eq_false_iff_ne.2 (Ne.symm h)]

theorem resourceOverlap_symm (a b : String) :
    resourceOverlap a b = resourceOverlap b a := by
  unfold resourceOverlap
  rw [beq_symm_str]
  cases h1 : (b.data ++ ['/']).isPrefixOf a.data <;>
    cases h2 : (a.data ++ ['/']).isPrefixOf b.data <;>
    simp

theorem dbInsertLock_ok_shape {db db' : TaskDB} {l : TaskLock}
    (h : dbInsertLock db l = Except.ok db') :
    db' = { db with task_locks := db.task_locks ++ [l] } := by
  unfold dbInsertLock at h
  split at h
  · cases h
  · exact (Except.ok.injEq _ _ ▸ h).symm

theorem dbInsertLock_ok_guard {db db' : TaskDB} {l : TaskLock}
    (h : dbInsertLock db l = Except.ok db')
    (hact : l.active = true) :
    ∀ e ∈ db.task_locks, e.active = true → e.task_id ≠ l.task_id →
      resourceOverlap e.resource l.resource = false := by
  unfold dbInsertLock at h
  split at h
  · cases h
  · rename_i hguard
    rw [Bool.not_eq_true] at hguard
    rw [Bool.and_eq_false_iff] at hguard
    rcases hguard with hguard | hguard
    · rw [hact] at hguard; cases hguard
    · intro e he heact hene
      have hthis := List.any_eq_false.1 hguard e he
      simp only [Bool.and_eq_true, bne_iff_ne, not_and, and_imp] at hthis
      have hov := hthis heact hene
      cases hb : resourceOverlap e.resource l.resource
      · rfl
      · exact absurd hb hov

theorem dbInsertLock_ok_inv {db db' : TaskDB} {l : TaskLock}
    (hinv : LockInvariant db) (h : dbInsertLock db l = Except.ok db') :
    LockInvariant db' := by
  have hshape := dbInsertLock_ok_shape h
  subst hshape
  intro l1 h1 l2 h2 ha1 ha2 hne
  simp only [List.mem_append, List.mem_singleton] at h1 h2
  rcases h1 with h1 | rfl <;> rcases h2 with h2 | rfl
  · exact hinv l1 h1 l2 h2 ha1 ha2 hne
  · exact dbInsertLock_ok_guard h ha2 l1 h1 ha1 hne
  · rw [resourceOverlap_symm]
    exact dbInsertLock_ok_guard h ha1 l2 h2 ha2 (Ne.symm hne)
  · exact absurd rfl hne

theorem assignLocksGo_inv {tid now : String} :
    ∀ (resources : List String) (ids : List String) {db : TaskDB},
      LockInvariant db → LockInvariant (assignLocksGo db tid resources ids now).1 := by
  intro resources
  induction resources with
  | nil => intro ids db h; exact h
  | cons r rest ih =>
    intro ids db h
    unfold assignLocksGo
    by_cases hr : r = ""
    · rw [if_pos hr]; exact ih ids h
    · rw [if_neg hr]
      dsimp only
      cases hins : dbInsertLock db ⟨ids.headD "", tid, r, true, now⟩ with
      | error e => exact h
      | ok db2 =>
        have h' := dbInsertLock_ok_inv h hins
        dsimp only
        cases hgo : assignLocksGo db2 tid rest ids.tail now with
        | mk dbf res =>
          have hrec := ih ids.tail h'
          rw [hgo] at hrec
          cases res <;> exact hrec

theorem releaseLocks_inv {db : TaskDB} (tid : String)
    (hinv : LockInvariant db) : LockInvariant (releaseLocks db tid).1 := by
  intro l1 h1 l2 h2 ha1 ha2 hne
  simp only [releaseLocks, List.mem_map] at h1 h2
  obtain ⟨x1, hx1, hx1e⟩ := h1
  obtain ⟨x2, hx2, hx2e⟩ := h2
  have e1 : l1.resource = x1.resource ∧ l1.task_id = x1.task_id ∧ x1.active = true := by
    by_cases hc : (x1.task_id == tid && x1.active) = true
    · rw [if_pos hc] at hx1e
      rw [← hx1e] at ha1
      cases ha1
    · rw [if_neg hc] at hx1e
      rw [← hx1e] at ha1 ⊢
      exact ⟨rfl, rfl, ha1⟩
  have e2 : l2.resource = x2.resource ∧ l2.task_id = x2.task_id ∧ x2.active = true := by
    by_cases hc : (x2.task_id == tid && x2.active) = true
    · rw [if_pos hc] at hx2e
      rw [← hx2e] at ha2
      cases ha2
    · rw [if_neg hc] at hx2e
      rw [← hx2e] at ha2 ⊢
      exact ⟨rfl, rfl, ha2⟩
  rw [e1.1, e2.1]
  exact hinv x1 hx1 x2 hx2 e1.2.2 e2.2.2 (by rw [e1.2.1, e2.2.1] at hne; exact hne)

end TaskCore

namespace TaskCore

theorem createTask_ok {db db' : TaskDB} {tid title owner now : String} {row : TaskRow}
    (h : createTask db tid title owner now = Except.ok (db', row)) :
    db' = { db with tasks := db.tasks ++ [row] } ∧ row.status = TaskState.todo := by
  unfold createTask at h
  split at h
  · cases h
  · injection h with hpair
    rw [Prod.mk.injEq] at hpair
    obtain ⟨h1, h2⟩ := hpair
    subst h2
    subst h1
    exact ⟨rfl, rfl⟩

theorem transition_fst_locks (db : TaskDB) (tid : String) (f t : TaskState)
    (a re ev : String) (v : Nat) (eid now : String) :
    (transition db tid f t a re ev v eid now).1.task_locks = db.task_locks := by
  unfold transition
  dsimp only
  split
  · split
    · rfl
    · split <;> rfl
  · split
    · rfl
    · split
      · rfl
      · split <;> rfl

theorem transition_fst_deps (db : TaskDB) (tid : String) (f t : TaskState)
    (a re ev : String) (v : Nat) (eid now : String) :
    (transition db tid f t a re ev v eid now).1.task_dependencies
      = db.task_dependencies := by
  unfold transition
  dsimp only
  split
  · split
    · rfl
    · split <;> rfl
  · split
    · rfl
    · split
      · rfl
      · split <;> rfl

theorem assignLocksGo_keeps {tid now : String} :
    ∀ (resources ids : List String) {db : TaskDB},
      (assignLocksGo db tid resources ids now).1.tasks = db.tasks
      ∧ (assignLocksGo db tid resources ids now).1.task_dependencies
          = db.task_dependencies := by
  intro resources
  induction resources with
  | nil => intro ids db; exact ⟨rfl, rfl⟩
  | cons r rest ih =>
    intro ids db
    unfold assignLocksGo
    by_cases hr : r = ""
    · rw [if_pos hr]; exact ih ids
    · rw [if_neg hr]
      dsimp only
      cases hins : dbInsertLock db ⟨ids.headD "", tid, r, true, now⟩ with
      | error e => exact ⟨rfl, rfl⟩
      | ok db2 =>
        have hshape := dbInsertLock_ok_shape hins
        dsimp only
        cases hgo : assignLocksGo db2 tid rest ids.tail now with
        | mk dbf res =>
          have hrec := @ih ids.tail db2
          rw [hgo] at hrec
          have h2 : db2.tasks = db.tasks ∧ db2.task_dependencies = db.task_dependencies := by
            rw [hshape]; exact ⟨rfl, rfl⟩
          cases res <;>
            exact ⟨hrec.1.trans h2.1, hrec.2.trans h2.2⟩

theorem lockInvariant_of_eq {db db' : TaskDB} (h : db'.task_locks = db.task_locks)
    (hinv : LockInvariant db) : LockInvariant db' := by
  intro l1 h1 l2 h2
  rw [h] at h1 h2
  exact hinv l1 h1 l2 h2

theorem reachable_lockInvariant {db : TaskDB} (h : Reachable db) : LockInvariant db := by
  induction h with
  | empty => intro l1 h1 l2 h2 _ _ _; cases h1
  | create hr hc ih =>
    exact lockInvariant_of_eq (by rw [(createTask_ok hc).1]) ih
  | addDeps hr ih => exact lockInvariant_of_eq rfl ih
  | trans hr ih =>
    exact lockInvariant_of_eq (transition_fst_locks _ _ _ _ _ _ _ _ _ _) ih
  | locks hr ih => exact assignLocksGo_inv _ _ ih
  | release hr ih => exact releaseLocks_inv _ ih
  | rawLock hr hc ih => exact dbInsertLock_ok_inv ih hc

/-- Active lock on src held by task A, for the C3 witness. -/
def c3Lock : TaskLock :=
  { id := "l1", task_id := "A", resource := "src", active := true, created_at := "c" }

/-- Store with one active lock for the C3 witness. -/
def c3DB : TaskDB :=
  { tasks := [], task_dependencies := [], task_locks := [c3Lock], task_events := [] }

end TaskCore

/-- C3: in every reachable state, active locks of distinct tasks never
path-prefix-overlap; assigning a lock whose resource overlaps an active lock
of a different task fails at the DB level and surfaces as LockConflict; and
inserting an overlapping inactive lock succeeds (the index is partial over
active rows). -/
theorem c3_active_lock_prefix_exclusion :
    (∀ db : TaskCore.TaskDB, TaskCore.Reachable db →
      ∀ l1 ∈ db.task_locks, ∀ l2 ∈ db.task_locks,
        l1.active = true → l2.active = true → l1.task_id ≠ l2.task_id →
          TaskCore.resourceOverlap l1.resource l2.resource = false)
  ∧ (∀ (db : TaskCore.TaskDB) (tid r : String) (ids : List String) (now : String),
      r ≠ "" →
      (∃ e ∈ db.task_locks, e.active = true ∧ e.task_id ≠ tid ∧
          TaskCore.resourceOverlap e.resource r = true) →
      (TaskCore.assignLocks db tid [r] ids now).2
        = Except.error TaskCore.TaskErr.lockConflict)
  ∧ (∀ (db : TaskCore.TaskDB) (l : TaskCore.TaskLock), l.active = false →
      TaskCore.dbInsertLock db l
        = Except.ok { db with task_locks := db.task_locks ++ [l] }) := by
  refine ⟨fun db h => TaskCore.reachable_lockInvariant h, ?_, ?_⟩
  · intro db tid r ids now hr hex
    obtain ⟨e, he, heact, hene, hov⟩ := hex
    have hany : (db.task_locks.any fun e =>
        e.active && e.task_id != tid && TaskCore.resourceOverlap e.resource r) = true := by
      rw [List.any_eq_true]
      exact ⟨e, he, by
        rw [Bool.and_eq_true, Bool.and_eq_true]
        exact ⟨⟨heact, bne_iff_ne.2 hene⟩, hov⟩⟩
    unfold TaskCore.assignLocks TaskCore.assignLocksGo
    rw [if_neg hr]
    dsimp only
    have hins : TaskCore.dbInsertLock db ⟨ids.headD "", tid, r, true, now⟩
        = Except.error () := by
      unfold TaskCore.dbInsertLock
      rw [if_pos (by rw [Bool.and_eq_true]; exact ⟨rfl, hany⟩)]
    rw [hins]
  · intro db l hl
    unfold TaskCore.dbInsertLock
    rw [if_neg (by rw [hl]; simp)]

/-- C3 witness: with task A holding the active lock on src, task B's attempt
on src/api/handler.py fails with LockConflict, while inserting the same
resource as an inactive row succeeds. -/
theorem c3_active_lock_prefix_exclusion_witness :
    (TaskCore.assignLocks TaskCore.c3DB "B" ["src/api/handler.py"] ["l2"] "n").2
      = Except.error TaskCore.TaskErr.lockConflict
  ∧ TaskCore.dbInsertLock TaskCore.c3DB
      { id := "l3", task_id := "B", resource := "src/api/handler.py",
        active := false, created_at := "n" }
      = Except.ok { TaskCore.c3DB with
          task_locks := TaskCore.c3DB.task_locks ++
            [{ id := "l3", task_id := "B", resource := "src/api/handler.py",
               active := false, created_at := "n" }] } :=
  ⟨c3_active_lock_prefix_exclusion.2.1 TaskCore.c3DB "B" "src/api/handler.py" ["l2"] "n"
    (by decide)
    ⟨TaskCore.c3Lock, by decide, by decide, by decide, by decide⟩,
   c3_active_lock_prefix_exclusion.2.2 TaskCore.c3DB
    { id := "l3", task_id := "B", resource := "src/api/handler.py",
      active := false, created_at := "n" } rfl⟩

namespace TaskCore

/-- Invariant 4 of the spec: every in-progress task has all of its declared
dependencies resting in state done. -/
def DepInvariant (db : TaskDB) : Prop :=
  ∀ r ∈ db.tasks, r.status = TaskState.in_progress →
    ∀ d ∈ db.task_dependencies, d.1 = r.task_id →
      ∃ rd ∈ db.tasks, rd.task_id = d.2 ∧ rd.status = TaskState.done

/-- States reachable when dependencies are only ever added to a task that is
not currently in progress; every other operation is unrestricted. -/
inductive ReachableD : TaskDB → Prop
  | empty : ReachableD emptyTaskDB
  | create {db db' : TaskDB} {tid title owner now : String} {row : TaskRow} :
      ReachableD db → createTask db tid title owner now = Except.ok (db', row) →
      ReachableD db'
  | addDeps {db : TaskDB} {tid : String} {deps : List String} :
      ReachableD db →
      (∀ r ∈ db.tasks, r.task_id = tid → r.status ≠ TaskState.in_progress) →
      ReachableD (addDependencies db tid deps)
  | trans {db : TaskDB} {tid : String} {f t : TaskState} {a re ev : String}
      {v : Nat} {eid now : String} :
      ReachableD db → ReachableD (transition db tid f t a re ev v eid now).1
  | locks {db : TaskDB} {tid : String} {resources ids : List String} {now : String} :
      ReachableD db → ReachableD (assignLocks db tid resources ids now).1
  | release {db : TaskDB} {tid : String} :
      ReachableD db → ReachableD (releaseLocks db tid).1
  | rawLock {db db' : TaskDB} {l : TaskLock} :
      ReachableD db → dbInsertLock db l = Except.ok db' → ReachableD db'

theorem transition_shape (db : TaskDB) (tid : String) (f t : TaskState)
    (a re ev : String) (v : Nat) (eid now : String) :
    (transition db tid f t a re ev v eid now).1 = db
  ∨ (allowedTransition f t = true
     ∧ (t == TaskState.in_progress && depsIncomplete db tid) = false
     ∧ (transition db tid f t a re ev v eid now).1
         = { db with
              tasks := db.tasks.map fun r =>
                if casMatch tid f v r then applyCas t now r else r,
              task_events := db.task_events ++
                [{ id := eid, task_id := tid, event_type := "state_transition",
                   actor := a, payload_from := f, payload_to := t,
                   payload_reason := re, payload_evidence := ev, created_at := now }] }) := by
  unfold transition
  dsimp only
  split
  · split
    · exact Or.inl rfl
    · split <;> exact Or.inl rfl
  · split
    · exact Or.inl rfl
    · rename_i h2
      split
      · exact Or.inl rfl
      · rename_i h3
        have h2' : allowedTransition f t = true := not_not.1 h2
        have h3' : (t == TaskState.in_progress && depsIncomplete db tid) = false := by
          rwa [Bool.not_eq_true] at h3
        split
        · exact Or.inl rfl
        · exact Or.inr ⟨h2', h3', rfl⟩

theorem mem_addDependencies {db : TaskDB} {tid : String} {deps : List String}
    {d : String × String}
    (h : d ∈ (addDependencies db tid deps).task_dependencies) :
    d ∈ db.task_dependencies ∨ d.1 = tid := by
  have key : ∀ (ds : List String) (acc : List (String × String)),
      d ∈ ds.foldl (fun acc d2 => if d2 = "" then acc else insertIg acc (tid, d2)) acc →
      d ∈ acc ∨ d.1 = tid := by
    intro ds
    induction ds with
    | nil => intro acc h2; exact Or.inl h2
    | cons x xs ih =>
      intro acc h2
      rw [List.foldl_cons] at h2
      by_cases hx : x = ""
      · rw [if_pos hx] at h2; exact ih acc h2
      · rw [if_neg hx] at h2
        rcases ih _ h2 with h3 | h3
        · rcases mem_of_insertIg h3 with h4 | h4
          · exact Or.inl h4
          · right; rw [h4]
        · exact Or.inr h3
  exact key deps db.task_dependencies h

theorem depInvariant_of_eq {db db' : TaskDB} (htasks : db'.tasks = db.tasks)
    (hdeps : db'.task_dependencies = db.task_dependencies)
    (hinv : DepInvariant db) : DepInvariant db' := by
  intro r hr hs d hd he
  rw [htasks] at hr
  rw [hdeps] at hd
  obtain ⟨rd, hrd, hh⟩ := hinv r hr hs d hd he
  exact ⟨rd, by rw [htasks]; exact hrd, hh⟩

theorem allowed_from_ne_done {f t : TaskState} (h : allowedTransition f t = true) :
    f ≠ TaskState.done := by
  intro hf
  subst hf
  cases t <;> simp [allowedTransition] at h

theorem depsIncomplete_false_done {db : TaskDB} {tid : String}
    (h : depsIncomplete db tid = false) {d : String × String}
    (hd : d ∈ db.task_dependencies) (hd1 : d.1 = tid) :
    ∃ rd ∈ db.tasks, rd.task_id = d.2 ∧ rd.status = TaskState.done := by
  have hany := List.any_eq_false.1 h d hd
  have hdone : (db.tasks.any fun x => x.task_id == d.2 && x.status == TaskState.done)
      = true := by
    by_contra hcon
    apply hany
    rw [Bool.and_eq_true]
    refine ⟨beq_iff_eq.2 hd1, ?_⟩
    rw [Bool.eq_false_iff.2 hcon]
    rfl
  obtain ⟨rd, hrd, hrdp⟩ := List.any_eq_true.1 hdone
  rw [Bool.and_eq_true] at hrdp
  exact ⟨rd, hrd, beq_iff_eq.1 hrdp.1, beq_iff_eq.1 hrdp.2⟩

theorem casMatch_false_of_done {tid : String} {f : TaskState} {v : Nat} {rd : TaskRow}
    (hst : rd.status = TaskState.done) (hf : f ≠ TaskState.done) :
    casMatch tid f v rd = false := by
  unfold casMatch
  have : (rd.status == f) = false := by
    rw [beq_eq_false_iff_ne]
    rw [hst]
    exact fun hh => hf hh.symm
  rw [this]
  simp

theorem reachableD_depInvariant {db : TaskDB} (h : ReachableD db) : DepInvariant db := by
  induction h with
  | empty => intro r hr _ _ _ _; cases hr
  | create hr hc ih =>
    obtain ⟨hshape, hstat⟩ := createTask_ok hc
    subst hshape
    intro r' hr' hinp d hd he
    rcases List.mem_append.1 hr' with hold | hnew
    · obtain ⟨rd, hrd, hh⟩ := ih r' hold hinp d hd he
      exact ⟨rd, List.mem_append_left _ hrd, hh⟩
    · rw [List.mem_singleton.1 hnew] at hinp
      rw [hstat] at hinp
      cases hinp
  | addDeps hr hguard ih =>
    intro r' hr' hinp d hd he
    rcases mem_addDependencies hd with hold | hnew
    · exact ih r' hr' hinp d hold he
    · rw [he] at hnew
      exact absurd hinp (hguard r' hr' hnew)
  | trans hr ih =>
    rename_i db0 tid f t a re ev v eid now
    rcases transition_shape db0 tid f t a re ev v eid now with heq | ⟨hallow, hgate, heq⟩
    · rw [heq]; exact ih
    · rw [heq]
      intro r' hr' hinp d hd he
      obtain ⟨r0, hr0, hr0e⟩ := List.mem_map.1 hr'
      have hfned : f ≠ TaskState.done := allowed_from_ne_done hallow
      by_cases hcas : casMatch tid f v r0 = true
      · rw [if_pos hcas] at hr0e
        have hstat : t = TaskState.in_progress := by
          rw [← hr0e] at hinp
          exact hinp
        have hdeps : depsIncomplete db0 tid = false := by
          have hb : (t == TaskState.in_progress) = true := by rw [hstat]; rfl
          rw [hb, Bool.true_and] at hgate
          exact hgate
        have hd1 : d.1 = tid := by
          rw [he, ← hr0e]
          have h0 : r0.task_id = tid := beq_iff_eq.1 (casMatch_task_id hcas)
          exact h0
        obtain ⟨rd, hrd, hrdid, hrdst⟩ := depsIncomplete_false_done hdeps hd hd1
        have hcasrd := @casMatch_false_of_done tid f v rd hrdst hfned
        refine ⟨rd, ?_, hrdid, hrdst⟩
        have : (if casMatch tid f v rd then applyCas t now rd else rd) = rd := by
          rw [if_neg (by rw [hcasrd]; exact fun hh => by cases hh)]
        rw [← this]
        exact List.mem_map_of_mem _ hrd
      · rw [if_neg hcas] at hr0e
        rw [← hr0e] at hinp
        obtain ⟨rd, hrd, hrdid, hrdst⟩ := ih r0 hr0 hinp d hd (by rw [he, ← hr0e])
        have hcasrd := @casMatch_false_of_done tid f v rd hrdst hfned
        refine ⟨rd, ?_, hrdid, hrdst⟩
        have : (if casMatch tid f v rd then applyCas t now rd else rd) = rd := by
          rw [if_neg (by rw [hcasrd]; exact fun hh => by cases hh)]
        rw [← this]
        exact List.mem_map_of_mem _ hrd
  | locks hr ih =>
    rename_i db0 tid resources ids now
    exact depInvariant_of_eq (assignLocksGo_keeps resources ids).1
      (assignLocksGo_keeps resources ids).2 ih
  | release hr ih => exact depInvariant_of_eq rfl rfl ih
  | rawLock hr hc ih =>
    have hshape := dbInsertLock_ok_shape hc
    subst hshape
    exact depInvariant_of_eq rfl rfl ih

end TaskCore

namespace TaskCore

/-- Task a as created, for the C4 counterexample trace. -/
def c4RowA : TaskRow :=
  { task_id := "a", title := "main", status := TaskState.todo, owner := "",
    retry_count := 0, version := 0, created_at := "c", updated_at := "c" }

/-- Task b as created, for the C4 counterexample trace. -/
def c4RowB : TaskRow :=
  { task_id := "b", title := "dep", status := TaskState.todo, owner := "",
    retry_count := 0, version := 0, created_at := "c", updated_at := "c" }

/-- State after creating a. -/
def c4DBA : TaskDB :=
  { tasks := [c4RowA], task_dependencies := [], task_locks := [], task_events := [] }

/-- State after creating a and b. -/
def c4DBAB : TaskDB :=
  { tasks := [c4RowA, c4RowB], task_dependencies := [], task_locks := [],
    task_events := [] }

/-- Task a after its todo → in_progress transition. -/
def c4RowA2 : TaskRow :=
  { c4RowA with
      status := TaskState.in_progress,
      version := 1,
      updated_at := "n" }

/-- Event appended by that transition. -/
def c4Ev : TaskEvent :=
  { id := "e", task_id := "a", event_type := "state_transition", actor := "o",
    payload_from := TaskState.todo, payload_to := TaskState.in_progress,
    payload_reason := "", payload_evidence := "", created_at := "n" }

/-- State after the transition of a. -/
def c4DB3 : TaskDB :=
  { tasks := [c4RowA2, c4RowB], task_dependencies := [], task_locks := [],
    task_events := [c4Ev] }

/-- State after add_dependencies(a, [b]) while a is already in progress: the
reachable state violating the dependency invariant. -/
def c4Bad : TaskDB :=
  { tasks := [c4RowA2, c4RowB], task_dependencies := [("a", "b")], task_locks := [],
    task_events := [c4Ev] }

/-- Evaluation of the transition gate: with the CAS matching one row and some
dependency not done, the todo → in_progress transition aborts inside the
transaction with DependencyNotMet and the state is unchanged. -/
theorem transition_depgate (db : TaskDB) (tid a re ev : String) (v : Nat)
    (eid now : String)
    (hmatch : (db.tasks.filter (casMatch tid TaskState.todo v)).length = 1)
    (hdep : depsIncomplete db tid = true) :
    transition db tid TaskState.todo TaskState.in_progress a re ev v eid now
      = (db, Except.error TaskErr.dependencyNotMet) := by
  unfold transition
  dsimp only
  rw [hmatch]
  rw [if_neg (by decide)]
  rw [if_neg (by simp [allowedTransition])]
  rw [if_pos (show (TaskState.in_progress == TaskState.in_progress
      && depsIncomplete db tid) = true by rw [hdep]; decide)]

theorem depsIncomplete_of_exists {db : TaskDB} {tid : String}
    (h : ∃ d ∈ db.task_dependencies, d.1 = tid ∧
        ∀ rd ∈ db.tasks, ¬(rd.task_id = d.2 ∧ rd.status = TaskState.done)) :
    depsIncomplete db tid = true := by
  obtain ⟨d, hd, hd1, hnone⟩ := h
  unfold depsIncomplete
  rw [List.any_eq_true]
  refine ⟨d, hd, ?_⟩
  rw [Bool.and_eq_true]
  refine ⟨beq_iff_eq.2 hd1, ?_⟩
  have hany : (db.tasks.any fun r => r.task_id == d.2 && r.status == TaskState.done)
      = false := by
    rw [List.any_eq_false]
    intro x hx hcon
    rw [Bool.and_eq_true] at hcon
    exact hnone x hx ⟨beq_iff_eq.1 hcon.1, beq_iff_eq.1 hcon.2⟩
  rw [hany]
  rfl

end TaskCore

/-- C4 counterexample: the state c4Bad is reachable through the store's own
operations — create a, create b, transition a to in_progress (it has no
dependencies yet), then add_dependencies(a, [b]) — and in it the in-progress
task a has the dependency b still in todo, so the claim's "in every reachable
state each in-progress task has all of its dependencies done" is false:
nothing gates add_dependencies on an already-running task. -/
theorem c4_add_deps_breaks_invariant :
    TaskCore.Reachable TaskCore.c4Bad ∧ ¬ TaskCore.DepInvariant TaskCore.c4Bad := by
  constructor
  · have h1 : TaskCore.Reachable TaskCore.c4DBA :=
      TaskCore.Reachable.create TaskCore.Reachable.empty
        (show TaskCore.createTask TaskCore.emptyTaskDB "a" "main" "" "c"
            = Except.ok (TaskCore.c4DBA, TaskCore.c4RowA) from rfl)
    have h2 : TaskCore.Reachable TaskCore.c4DBAB :=
      TaskCore.Reachable.create h1
        (show TaskCore.createTask TaskCore.c4DBA "b" "dep" "" "c"
            = Except.ok (TaskCore.c4DBAB, TaskCore.c4RowB) from rfl)
    have h3 : TaskCore.Reachable TaskCore.c4DB3 :=
      (show (TaskCore.transition TaskCore.c4DBAB "a" TaskCore.TaskState.todo
          TaskCore.TaskState.in_progress "o" "" "" 0 "e" "n").1 = TaskCore.c4DB3
        by decide) ▸ TaskCore.Reachable.trans h2
    exact (show TaskCore.addDependencies TaskCore.c4DB3 "a" ["b"] = TaskCore.c4Bad
        by decide) ▸ TaskCore.Reachable.addDeps h3
  · intro hinv
    obtain ⟨rd, hrd, hid, hst⟩ := hinv TaskCore.c4RowA2 (by decide) (by decide)
      ("a", "b") (by decide) (by decide)
    have hcase : rd = TaskCore.c4RowA2 ∨ rd = TaskCore.c4RowB := by
      simpa [TaskCore.c4Bad] using hrd
    rcases hcase with rfl | rfl
    · exact absurd hst (by decide)
    · exact absurd hst (by decide)

/-- C4 (amended): with the CAS matching and a declared dependency not done,
the todo → in_progress transition fails with DependencyNotMet, raised by the
DB-level dependency gate; consequently every state reachable without adding
dependencies to a task while it is in progress satisfies the invariant that
each in-progress task has all of its dependencies in state done. -/
theorem c4_dependency_gate :
    (∀ db : TaskCore.TaskDB, TaskCore.ReachableD db → TaskCore.DepInvariant db)
  ∧ (∀ (db : TaskCore.TaskDB) (tid a re ev : String) (v : Nat) (eid now : String),
      (db.tasks.filter (TaskCore.casMatch tid TaskCore.TaskState.todo v)).length = 1 →
      (∃ d ∈ db.task_dependencies, d.1 = tid ∧
          ∀ rd ∈ db.tasks, ¬(rd.task_id = d.2 ∧ rd.status = TaskCore.TaskState.done)) →
      TaskCore.transition db tid TaskCore.TaskState.todo TaskCore.TaskState.in_progress
          a re ev v eid now
        = (db, Except.error TaskCore.TaskErr.dependencyNotMet)) :=
  ⟨fun _ h => TaskCore.reachableD_depInvariant h,
   fun db tid a re ev v eid now hmatch hex =>
    TaskCore.transition_depgate db tid a re ev v eid now hmatch
      (TaskCore.depsIncomplete_of_exists hex)⟩

/-- C4 witness: main task a (todo, version 0) declares the dependency b which
is still todo; the todo → in_progress transition on a returns
DependencyNotMet and leaves the store unchanged. -/
theorem c4_dependency_gate_witness :
    TaskCore.transition
        { tasks := [TaskCore.c4RowA, TaskCore.c4RowB],
          task_dependencies := [("a", "b")], task_locks := [], task_events := [] }
        "a" TaskCore.TaskState.todo TaskCore.TaskState.in_progress "o" "" "" 0 "e" "n"
      = ({ tasks := [TaskCore.c4RowA, TaskCore.c4RowB],
           task_dependencies := [("a", "b")], task_locks := [], task_events := [] },
         Except.error TaskCore.TaskErr.dependencyNotMet) :=
  c4_dependency_gate.2
    { tasks := [TaskCore.c4RowA, TaskCore.c4RowB],
      task_dependencies := [("a", "b")], task_locks := [], task_events := [] }
    "a" "o" "" "" 0 "e" "n" (by decide)
    ⟨("a", "b"), by decide, rfl, by decide⟩

namespace Ingest

/-- Character-list view of a Python string, so that slicing and length match
Python's codepoint semantics. -/
abbrev Text := List Char

/-- Python "\n".join over pre-split lines. -/
def joinNl (ls : List Text) : Text := List.intercalate ['\n'] ls

/-- Python text.split("\n"): split at every newline, keeping empty pieces. -/
def splitNl : Text → List Text
  | [] => [[]]
  | c :: rest =>
    if c = '\n' then [] :: splitNl rest
    else
      match splitNl rest with
      | [] => [[c]]
      | h :: t => (c :: h) :: t

/-- Python section.split("\n\n"): split at each non-overlapping blank-line
separator, scanning left to right. -/
def splitNl2 : Text → List Text
  | [] => [[]]
  | '\n' :: '\n' :: rest => [] :: splitNl2 rest
  | c :: rest =>
    match splitNl2 rest with
    | [] => [[c]]
    | h :: t => (c :: h) :: t

/-- Python line.startswith("## "). -/
def isHdr (line : Text) : Bool := ['#', '#', ' '].isPrefixOf line

/-- Section loop of split_markdown: start a new section at each "## " line
once something is accumulated, keeping each heading with its content; the
final accumulator is flushed when non-empty. -/
def sectionsGo : List Text → List Text → List Text
  | current, [] => if current.isEmpty then [] else [joinNl current]
  | current, line :: rest =>
    if isHdr line && !current.isEmpty then
      joinNl current :: sectionsGo [line] rest
    else sectionsGo (current ++ [line]) rest

/-- Hard slicing of an oversized paragraph: para[i : i + max_chars] for i in
range(0, len(para), max_chars).  The source only reaches this with
max_chars > 0 and len(para) > max_chars; a zero step would raise in Python
and is given a junk value here. -/
def slices (m : Nat) (t : Text) : List Text :=
  if t.isEmpty then []
  else if _hm : m = 0 then [t]
  else if _h : t.length ≤ m then [t]
  else t.take m :: slices m (t.drop m)
termination_by t.length
decreasing_by
  rw [List.length_drop]
  omega

/-- Paragraph-accumulation loop for a section exceeding max_chars: flush the
current chunk when appending the next paragraph (plus the "\n\n" joiner)
would exceed max_chars, hard-slice paragraphs that alone exceed it, and flush
the remainder at the end. -/
def paraGo (m : Nat) : List Text → Text → List Text
  | [], current => if current.isEmpty then [] else [current]
  | para :: rest, current =>
    if current.length + para.length + 2 > m then
      (if current.isEmpty then [] else [current]) ++
      (if para.length > m then slices m para ++ paraGo m rest []
       else paraGo m rest para)
    else
      paraGo m rest (if current.isEmpty then para else current ++ '\n' :: '\n' :: para)

/-- memory_access/ingest.py split_markdown over the character list of the
input: empty input after strip gives no chunks; sections split on "## "
headings; oversized sections re-split on paragraphs with hard slicing; each
chunk is stripped and empties are dropped. -/
def split_markdown (t : Text) (maxChars : Nat) : List Text :=
  if (Py.stripChars t).isEmpty then []
  else
    let secs := sectionsGo [] (splitNl t)
    let chunks := secs.flatMap fun s =>
      if s.length ≤ maxChars then [s]
      else paraGo maxChars (splitNl2 s) []
    (chunks.map Py.stripChars).filter fun c => ¬ c.isEmpty

end Ingest

namespace Ingest

theorem length_dropWhile_le {α} (p : α → Bool) (l : List α) :
    (l.dropWhile p).length ≤ l.length := by
  induction l with
  | nil => exact Nat.le_refl 0
  | cons a l ih =>
    rw [List.dropWhile_cons]
    split
    · exact Nat.le_trans ih (Nat.le_succ _)
    · exact Nat.le_refl _

theorem stripChars_length_le (t : Text) : (Py.stripChars t).length ≤ t.length := by
  unfold Py.stripChars
  rw [List.length_reverse]
  refine Nat.le_trans (length_dropWhile_le _ _) ?_
  rw [List.length_reverse]
  exact length_dropWhile_le _ _

theorem head?_dropWhile {α} (p : α → Bool) (l : List α) :
    ∀ c ∈ (l.dropWhile p).head?, p c = false := by
  induction l with
  | nil => intro c hc; cases hc
  | cons a l ih =>
    intro c hc
    rw [List.dropWhile_cons] at hc
    split at hc
    · exact ih c hc
    · rename_i hpa
      rw [List.head?_cons, Option.mem_def, Option.some.injEq] at hc
      rw [← hc]
      exact Bool.eq_false_iff.2 hpa

theorem getLast?_dropWhile_of_ne_nil {α} (p : α → Bool) (l : List α)
    (h : l.dropWhile p ≠ []) : (l.dropWhile p).getLast? = l.getLast? := by
  induction l with
  | nil => exact absurd rfl h
  | cons a l ih =>
    rw [List.dropWhile_cons]
    rw [List.dropWhile_cons] at h
    split
    · rename_i hpa
      rw [if_pos hpa] at h
      have hlne : l ≠ [] := by
        intro he
        rw [he] at h
        exact h rfl
      rw [ih h]
      cases l with
      | nil => exact absurd rfl hlne
      | cons b t => rw [List.getLast?_cons_cons]
    · rfl

theorem stripChars_last (t : Text) :
    ∀ c ∈ (Py.stripChars t).getLast?, Py.isWS c = false := by
  intro c hc
  unfold Py.stripChars at hc
  rw [List.getLast?_reverse] at hc
  exact head?_dropWhile _ _ c hc

theorem stripChars_head (t : Text) :
    ∀ c ∈ (Py.stripChars t).head?, Py.isWS c = false := by
  intro c hc
  unfold Py.stripChars at hc
  rw [List.head?_reverse] at hc
  by_cases hne : (t.dropWhile Py.isWS).reverse.dropWhile Py.isWS = []
  · rw [hne] at hc
    cases hc
  · rw [getLast?_dropWhile_of_ne_nil _ _ hne, List.getLast?_reverse] at hc
    exact head?_dropWhile _ _ c hc

theorem slices_le {m : Nat} (hm : 0 < m) :
    ∀ (n : Nat) (t : Text), t.length ≤ n → ∀ s ∈ slices m t, s.length ≤ m := by
  intro n
  induction n with
  | zero =>
    intro t ht s hs
    rw [List.length_eq_zero.1 (Nat.le_zero.1 ht)] at hs
    rw [slices] at hs
    simp at hs
  | succ n ih =>
    intro t ht s hs
    rw [slices] at hs
    by_cases hemp : t.isEmpty
    · rw [if_pos hemp] at hs
      cases hs
    · rw [if_neg hemp] at hs
      rw [dif_neg (Nat.pos_iff_ne_zero.1 hm)] at hs
      by_cases hle : t.length ≤ m
      · rw [dif_pos hle] at hs
        rw [List.mem_singleton.1 hs]
        exact hle
      · rw [dif_neg hle] at hs
        rcases List.mem_cons.1 hs with rfl | hs2
        · rw [List.length_take]
          exact Nat.min_le_left _ _
        · refine ih (t.drop m) ?_ s hs2
          rw [List.length_drop]
          omega

theorem paraGo_le {m : Nat} (hm : 0 < m) :
    ∀ (ps : List Text) (current : Text), current.length ≤ m →
      ∀ c ∈ paraGo m ps current, c.length ≤ m := by
  intro ps
  induction ps with
  | nil =>
    intro current hcur c hc
    rw [paraGo] at hc
    split at hc
    · cases hc
    · rw [List.mem_singleton.1 hc]
      exact hcur
  | cons para rest ih =>
    intro current hcur c hc
    rw [paraGo] at hc
    split at hc
    · rcases List.mem_append.1 hc with h1 | h2
      · split at h1
        · cases h1
        · rw [List.mem_singleton.1 h1]
          exact hcur
      · split at h2
        · rcases List.mem_append.1 h2 with h3 | h4
          · exact slices_le hm para.length para (Nat.le_refl _) c h3
          · exact ih [] (by simp) c h4
        · rename_i hover hbig
          exact ih para (Nat.le_of_not_lt hbig) c h2
    · rename_i hover
      refine ih _ ?_ c hc
      split
      · rename_i hemp
        rw [List.isEmpty_iff] at hemp
        rw [hemp] at hover
        simp at hover
        omega
      · rw [List.length_append]
        simp only [List.length_cons]
        omega

end Ingest

/-- C10: for every input text and every max_chars > 0, each chunk returned by
split_markdown is non-empty, carries no leading or trailing whitespace, and
has length at most max_chars. -/
theorem c10_split_markdown_chunks (t : Ingest.Text) (m : Nat) (hm : 0 < m) :
    ∀ c ∈ Ingest.split_markdown t m,
      c ≠ []
      ∧ (∀ ch ∈ c.head?, Py.isWS ch = false)
      ∧ (∀ ch ∈ c.getLast?, Py.isWS ch = false)
      ∧ c.length ≤ m := by
  intro c hc
  unfold Ingest.split_markdown at hc
  split at hc
  · cases hc
  · rw [List.mem_filter] at hc
    obtain ⟨hmem, hne⟩ := hc
    obtain ⟨c0, hc0, hc0e⟩ := List.mem_map.1 hmem
    have hlen0 : c0.length ≤ m := by
      obtain ⟨s, _, hs2⟩ := List.mem_flatMap.1 hc0
      by_cases hsle : s.length ≤ m
      · rw [if_pos hsle] at hs2
        rw [List.mem_singleton.1 hs2]
        exact hsle
      · rw [if_neg hsle] at hs2
        exact Ingest.paraGo_le hm _ [] (by simp) c0 hs2
    subst hc0e
    refine ⟨?_, Ingest.stripChars_head c0, Ingest.stripChars_last c0, ?_⟩
    · intro habs
      rw [habs] at hne
      simp at hne
    · exact Nat.le_trans (Ingest.stripChars_length_le c0) hlen0

/-- C10 witness: a concrete markdown document split at max_chars 10. -/
theorem c10_split_markdown_chunks_witness :
    0 < 10
  ∧ ∀ c ∈ Ingest.split_markdown
        ("# T\n\nhello world\n\n## Sec\nmore text here").data 10,
      c ≠ []
      ∧ (∀ ch ∈ c.head?, Py.isWS ch = false)
      ∧ (∀ ch ∈ c.getLast?, Py.isWS ch = false)
      ∧ c.length ≤ 10 :=
  ⟨by decide,
   c10_split_markdown_chunks ("# T\n\nhello world\n\n## Sec\nmore text here").data 10
    (by decide)⟩

namespace SemMem

/-- np.dot over decoded float32 vectors, exact over the rationals. -/
def dotQ (a b : List ℚ) : ℚ := (List.zipWith (· * ·) a b).sum

/-- Squared L2 norm: np.linalg.norm(v) == 0 exactly when this vanishes. -/
def normSq (a : List ℚ) : ℚ := dotQ a a

/-- One search result: the row plus the score components (dot product,
squared query norm, squared stored norm); the float score the source stores
is dot / (sqrt qNormSq * sqrt sNormSq). -/
structure SearchHit where
  row : InsightRow
  dot : ℚ
  qNormSq : ℚ
  sNormSq : ℚ
deriving DecidableEq

/-- Real-valued reading of the float score computed in the source. -/
noncomputable def SearchHit.score (h : SearchHit) : ℝ :=
  (h.dot : ℝ) / (Real.sqrt (h.qNormSq : ℝ) * Real.sqrt (h.sNormSq : ℝ))

/-- SQL LIKE '%pat%' under SQLite's default ASCII-case-insensitive collation
(wildcard characters inside the domain value are outside every claim). -/
def likeContains (text pat : String) : Bool :=
  (text.data.map Char.toLower).tails.any fun t =>
    (pat.data.map Char.toLower).isPrefixOf t

/-- Candidate filter of the SQL query: embedding IS NOT NULL plus the
optional domains LIKE '%"domain"%' pre-filter on the raw column text. -/
def isCandidate (domain : Option String) (r : InsightRow) : Bool :=
  r.embedding.isSome &&
    (match domain with
     | some d => likeContains r.domainsText ("\"" ++ d ++ "\"")
     | none => true)

/-- Rows the scan keeps: an embedding is present and neither it nor the query
has zero norm. -/
def usableEmb (q : List ℚ) (r : InsightRow) : Bool :=
  match r.embedding with
  | none => false
  | some e => !(decide (normSq q = 0 ∨ normSq e = 0))

/-- Number of candidate rows with usable embeddings. -/
def usableCount (db : SemDB) (q : List ℚ) (domain : Option String) : Nat :=
  ((db.insights.filter (isCandidate domain)).filter (usableEmb q)).length

/-- Comparison "score of a is at least score of b", decided without square
roots through the sign-preserving square d * |d| / A; the query-norm factor
is shared by both hits and cancels. -/
def scoreGe (a b : SearchHit) : Bool :=
  decide (b.dot * |b.dot| * a.sNormSq ≤ a.dot * |a.dot| * b.sNormSq)

/-- Stable insertion in front of the first element the new hit compares ≥
against; on equal scores the earlier element stays first, exactly as
Python's stable list.sort with reverse=True orders equal keys. -/
def insertDesc (ge : SearchHit → SearchHit → Bool) (a : SearchHit) :
    List SearchHit → List SearchHit
  | [] => [a]
  | b :: l => if ge a b then a :: b :: l else b :: insertDesc ge a l

/-- Stable descending sort; a stable sort's output is determined by the key,
so this equals the source's list.sort(key=score, reverse=True). -/
def sortDesc (ge : SearchHit → SearchHit → Bool) : List SearchHit → List SearchHit
  | [] => []
  | a :: l => insertDesc ge a (sortDesc ge l)

/-- Loop body of the scan: decode the embedding, skip the row when the query
or the stored vector has zero norm, otherwise score it. -/
def scanRow (q : List ℚ) (r : InsightRow) : Option SearchHit :=
  match r.embedding with
  | none => none
  | some emb =>
    if normSq q = 0 ∨ normSq emb = 0 then none
    else some { row := r, dot := dotQ q emb, qNormSq := normSq q,
                sNormSq := normSq emb }

/-- InsightStore.search_by_embedding: SQL candidate filter, skip of rows with
a zero-norm stored vector or a zero-norm query, cosine scoring, stable
descending sort and truncation to the limit. -/
def searchByEmbedding (db : SemDB) (q : List ℚ) (limit : Nat)
    (domain : Option String) : List SearchHit :=
  let rows := db.insights.filter (isCandidate domain)
  let results := rows.filterMap (scanRow q)
  (sortDesc scoreGe results).take limit

end SemMem

namespace SemMem

theorem normSq_nonneg (v : List ℚ) : 0 ≤ normSq v := by
  unfold normSq dotQ
  induction v with
  | nil => exact le_refl 0
  | cons x xs ih =>
    rw [List.zipWith_cons_cons, List.sum_cons]
    exact add_nonneg (mul_self_nonneg x) ih

theorem insertDesc_perm (ge : SearchHit → SearchHit → Bool) (a : SearchHit)
    (l : List SearchHit) : (insertDesc ge a l).Perm (a :: l) := by
  induction l with
  | nil => exact List.Perm.refl _
  | cons b l ih =>
    rw [insertDesc]
    split
    · exact List.Perm.refl _
    · exact (ih.cons b).trans (List.Perm.swap a b l)

theorem sortDesc_perm (ge : SearchHit → SearchHit → Bool) (l : List SearchHit) :
    (sortDesc ge l).Perm l := by
  induction l with
  | nil => exact List.Perm.refl _
  | cons a l ih =>
    rw [sortDesc]
    exact (insertDesc_perm ge a _).trans (ih.cons a)

theorem mem_insertDesc {ge : SearchHit → SearchHit → Bool} {a x : SearchHit}
    {l : List SearchHit} (h : x ∈ insertDesc ge a l) : x = a ∨ x ∈ l := by
  have := (insertDesc_perm ge a l).mem_iff.1 h
  exact List.mem_cons.1 this

theorem pairwise_insertDesc {P : SearchHit → Prop} {ge : SearchHit → SearchHit → Bool}
    (htot : ∀ x y, P x → P y → ge x y = true ∨ ge y x = true)
    (htrans : ∀ x y z, P x → P y → P z →
      ge x y = true → ge y z = true → ge x z = true)
    (a : SearchHit) (hPa : P a) :
    ∀ l : List SearchHit, (∀ x ∈ l, P x) →
      l.Pairwise (fun x y => ge x y = true) →
      (insertDesc ge a l).Pairwise (fun x y => ge x y = true) := by
  intro l
  induction l with
  | nil =>
    intro _ _
    exact List.pairwise_singleton _ a
  | cons b l ih =>
    intro hPl hsort
    have hPb : P b := hPl b (by simp)
    obtain ⟨hb, hl⟩ := List.pairwise_cons.1 hsort
    rw [insertDesc]
    split
    · rename_i hab
      rw [List.pairwise_cons]
      refine ⟨?_, hsort⟩
      intro y hy
      rcases List.mem_cons.1 hy with rfl | hyl
      · exact hab
      · exact htrans a b y hPa hPb (hPl y (by simp [hyl])) hab (hb y hyl)
    · rename_i hab
      rw [List.pairwise_cons]
      constructor
      · intro y hy
        rcases mem_insertDesc hy with hya | hyl
        · subst hya
          rcases htot y b hPa hPb with h | h
          · exact absurd h hab
          · exact h
        · exact hb y hyl
      · exact ih (fun x hx => hPl x (by simp [hx])) hl

theorem pairwise_sortDesc {P : SearchHit → Prop} {ge : SearchHit → SearchHit → Bool}
    (htot : ∀ x y, P x → P y → ge x y = true ∨ ge y x = true)
    (htrans : ∀ x y z, P x → P y → P z →
      ge x y = true → ge y z = true → ge x z = true) :
    ∀ l : List SearchHit, (∀ x ∈ l, P x) →
      (sortDesc ge l).Pairwise (fun x y => ge x y = true) := by
  intro l
  induction l with
  | nil => intro _; exact List.Pairwise.nil
  | cons a l ih =>
    intro hPl
    rw [sortDesc]
    refine pairwise_insertDesc htot htrans a (hPl a (by simp)) _ ?_
      (ih fun x hx => hPl x (by simp [hx]))
    intro x hx
    exact hPl x (by simp [(sortDesc_perm ge l).mem_iff.1 hx])

end SemMem

namespace SemMem

theorem mul_abs_strictMono : StrictMono (fun t : ℝ => t * |t|) := by
  intro x y hxy
  simp only
  rcases abs_cases x with ⟨hx1, hx2⟩ | ⟨hx1, hx2⟩ <;>
    rcases abs_cases y with ⟨hy1, hy2⟩ | ⟨hy1, hy2⟩ <;> nlinarith

theorem score_mul_abs {d A : ℚ} (hA : 0 < A) :
    ((d : ℝ) / Real.sqrt (A : ℝ)) * |(d : ℝ) / Real.sqrt (A : ℝ)|
      = (d : ℝ) * |(d : ℝ)| / (A : ℝ) := by
  have hAr : (0 : ℝ) < (A : ℝ) := by exact_mod_cast hA
  rw [abs_div, abs_of_nonneg (Real.sqrt_nonneg _), div_mul_div_comm,
    Real.mul_self_sqrt hAr.le]

theorem scoreGe_iff {a b : SearchHit} (hq : a.qNormSq = b.qNormSq)
    (hqpos : 0 < a.qNormSq) (ha : 0 < a.sNormSq) (hb : 0 < b.sNormSq) :
    scoreGe a b = true ↔ b.score ≤ a.score := by
  unfold scoreGe
  rw [decide_eq_true_eq]
  have hAr : (0 : ℝ) < (a.sNormSq : ℝ) := by exact_mod_cast ha
  have hBr : (0 : ℝ) < (b.sNormSq : ℝ) := by exact_mod_cast hb
  have hQr : (0 : ℝ) < (a.qNormSq : ℝ) := by exact_mod_cast hqpos
  have hsQ : (0 : ℝ) < Real.sqrt (a.qNormSq : ℝ) := Real.sqrt_pos.2 hQr
  have h1 : (b.score ≤ a.score) ↔
      ((b.dot : ℝ) / Real.sqrt (b.sNormSq : ℝ)
        ≤ (a.dot : ℝ) / Real.sqrt (a.sNormSq : ℝ)) := by
    unfold SearchHit.score
    rw [← hq]
    rw [mul_comm (Real.sqrt (a.qNormSq : ℝ)) (Real.sqrt (a.sNormSq : ℝ)),
      mul_comm (Real.sqrt (a.qNormSq : ℝ)) (Real.sqrt (b.sNormSq : ℝ)),
      ← div_div, ← div_div]
    exact div_le_div_iff_of_pos_right hsQ
  have h2 : ((b.dot : ℝ) / Real.sqrt (b.sNormSq : ℝ)
        ≤ (a.dot : ℝ) / Real.sqrt (a.sNormSq : ℝ)) ↔
      ((b.dot : ℝ) * |(b.dot : ℝ)| / (b.sNormSq : ℝ)
        ≤ (a.dot : ℝ) * |(a.dot : ℝ)| / (a.sNormSq : ℝ)) := by
    rw [← mul_abs_strictMono.le_iff_le, score_mul_abs hb, score_mul_abs ha]
  have h3 : ((b.dot : ℝ) * |(b.dot : ℝ)| / (b.sNormSq : ℝ)
        ≤ (a.dot : ℝ) * |(a.dot : ℝ)| / (a.sNormSq : ℝ)) ↔
      ((b.dot : ℝ) * |(b.dot : ℝ)| * (a.sNormSq : ℝ)
        ≤ (a.dot : ℝ) * |(a.dot : ℝ)| * (b.sNormSq : ℝ)) :=
    div_le_div_iff hBr hAr
  rw [h1, h2, h3]
  constructor
  · intro h
    exact_mod_cast h
  · intro h
    exact_mod_cast h

end SemMem

namespace SemMem

theorem scanRow_some {q : List ℚ} {r : InsightRow} {h : SearchHit}
    (hs : scanRow q r = some h) :
    h.row = r ∧ h.qNormSq = normSq q ∧ 0 < h.qNormSq ∧ 0 < h.sNormSq
    ∧ ∃ emb, r.embedding = some emb ∧ normSq emb ≠ 0 ∧ normSq q ≠ 0
        ∧ h.sNormSq = normSq emb := by
  unfold scanRow at hs
  cases he : r.embedding with
  | none => rw [he] at hs; cases hs
  | some emb =>
    rw [he] at hs
    dsimp only at hs
    by_cases hz : normSq q = 0 ∨ normSq emb = 0
    · rw [if_pos hz] at hs; cases hs
    · rw [if_neg hz] at hs
      push_neg at hz
      injection hs with hs2
      subst hs2
      refine ⟨rfl, rfl, ?_, ?_, emb, rfl, hz.2, hz.1, rfl⟩
      · exact lt_of_le_of_ne (normSq_nonneg q) (Ne.symm hz.1)
      · exact lt_of_le_of_ne (normSq_nonneg emb) (Ne.symm hz.2)

theorem scanRow_isSome (q : List ℚ) (r : InsightRow) :
    (scanRow q r).isSome = usableEmb q r := by
  unfold scanRow usableEmb
  cases r.embedding with
  | none => rfl
  | some emb =>
    dsimp only
    by_cases hz : normSq q = 0 ∨ normSq emb = 0
    · rw [if_pos hz]
      simp [hz]
    · rw [if_neg hz]
      simp [hz]

theorem filterMap_scan_length (q : List ℚ) (l : List InsightRow) :
    (l.filterMap (scanRow q)).length = (l.filter (usableEmb q)).length := by
  induction l with
  | nil => rfl
  | cons r l ih =>
    rw [List.filterMap_cons, List.filter_cons]
    cases hs : scanRow q r with
    | none =>
      have hu : usableEmb q r = false := by
        rw [← scanRow_isSome, hs]
        rfl
      rw [hu]
      simpa using ih
    | some h =>
      have hu : usableEmb q r = true := by
        rw [← scanRow_isSome, hs]
        rfl
      rw [hu]
      simpa using ih

theorem scanRow_zero {q : List ℚ} (hz : normSq q = 0) (r : InsightRow) :
    scanRow q r = none := by
  unfold scanRow
  cases r.embedding with
  | none => rfl
  | some emb =>
    dsimp only
    rw [if_pos (Or.inl hz)]

end SemMem

/-- C9: search_by_embedding returns at most k hits, sorted in non-increasing
real cosine-score order; every hit comes from a stored candidate row with a
present, non-zero-norm embedding and a non-zero-norm query; a zero-norm query
yields no results; and when k is at least the number of candidate rows with
usable embeddings, every such row appears and the result length equals that
number. -/
theorem c9_search_by_embedding_contract (db : SemMem.SemDB) (q : List ℚ)
    (k : Nat) (domain : Option String) :
    (SemMem.searchByEmbedding db q k domain).length ≤ k
  ∧ (SemMem.searchByEmbedding db q k domain).Pairwise
      (fun a b => b.score ≤ a.score)
  ∧ (∀ h ∈ SemMem.searchByEmbedding db q k domain,
      h.row ∈ db.insights ∧ SemMem.isCandidate domain h.row = true
      ∧ ∃ emb, h.row.embedding = some emb ∧ SemMem.normSq emb ≠ 0
          ∧ SemMem.normSq q ≠ 0)
  ∧ (SemMem.normSq q = 0 → SemMem.searchByEmbedding db q k domain = [])
  ∧ (SemMem.usableCount db q domain ≤ k →
      (SemMem.searchByEmbedding db q k domain).length
        = SemMem.usableCount db q domain
      ∧ ∀ r ∈ db.insights, SemMem.isCandidate domain r = true →
          SemMem.usableEmb q r = true →
          ∃ h ∈ SemMem.searchByEmbedding db q k domain, h.row = r) := by
  have hresch : ∀ h ∈ (db.insights.filter (SemMem.isCandidate domain)).filterMap
      (SemMem.scanRow q),
      h.row ∈ db.insights ∧ SemMem.isCandidate domain h.row = true
      ∧ h.qNormSq = SemMem.normSq q ∧ 0 < h.qNormSq ∧ 0 < h.sNormSq
      ∧ ∃ emb, h.row.embedding = some emb ∧ SemMem.normSq emb ≠ 0
          ∧ SemMem.normSq q ≠ 0 := by
    intro h hm
    obtain ⟨r, hr, hs⟩ := List.mem_filterMap.1 hm
    obtain ⟨hrow, hqq, hqpos, hspos, emb, hemb, hne, hqne, _⟩ := SemMem.scanRow_some hs
    obtain ⟨hrmem, hrcand⟩ := List.mem_filter.1 hr
    subst hrow
    exact ⟨hrmem, hrcand, hqq, hqpos, hspos, emb, hemb, hne, hqne⟩
  have hsortmem : ∀ h ∈ SemMem.sortDesc SemMem.scoreGe
      ((db.insights.filter (SemMem.isCandidate domain)).filterMap (SemMem.scanRow q)),
      h ∈ (db.insights.filter (SemMem.isCandidate domain)).filterMap
        (SemMem.scanRow q) := by
    intro h hm
    exact (SemMem.sortDesc_perm _ _).mem_iff.1 hm
  refine ⟨?_, ?_, ?_, ?_, ?_⟩
  · unfold SemMem.searchByEmbedding
    dsimp only
    rw [List.length_take]
    exact Nat.min_le_left _ _
  · -- sortedness
    have hpair : (SemMem.sortDesc SemMem.scoreGe
        ((db.insights.filter (SemMem.isCandidate domain)).filterMap
          (SemMem.scanRow q))).Pairwise
        (fun a b => SemMem.scoreGe a b = true) := by
      refine @SemMem.pairwise_sortDesc
        (fun h => h.qNormSq = SemMem.normSq q ∧ 0 < h.qNormSq ∧ 0 < h.sNormSq)
        SemMem.scoreGe ?_ ?_ _ ?_
      · intro x y _ _
        unfold SemMem.scoreGe
        rcases le_total (y.dot * |y.dot| * x.sNormSq) (x.dot * |x.dot| * y.sNormSq)
          with h | h
        · exact Or.inl (decide_eq_true h)
        · exact Or.inr (decide_eq_true h)
      · intro x y z hx hy hz hxy hyz
        have hq1 : x.qNormSq = y.qNormSq := by rw [hx.1, hy.1]
        have hq2 : y.qNormSq = z.qNormSq := by rw [hy.1, hz.1]
        have hq3 : x.qNormSq = z.qNormSq := by rw [hx.1, hz.1]
        exact (SemMem.scoreGe_iff hq3 hx.2.1 hx.2.2 hz.2.2).2
          (le_trans ((SemMem.scoreGe_iff hq2 hy.2.1 hy.2.2 hz.2.2).1 hyz)
            ((SemMem.scoreGe_iff hq1 hx.2.1 hx.2.2 hy.2.2).1 hxy))
      · intro x hx
        obtain ⟨_, _, hqq, hqpos, hspos, _⟩ := hresch x hx
        exact ⟨hqq, hqpos, hspos⟩
    have htake : (SemMem.searchByEmbedding db q k domain).Pairwise
        (fun a b => SemMem.scoreGe a b = true) :=
      hpair.sublist (List.take_sublist _ _)
    refine htake.imp_of_mem ?_
    intro a b hma hmb hge
    have hta : a ∈ SemMem.sortDesc SemMem.scoreGe _ :=
      List.mem_of_mem_take hma
    have htb : b ∈ SemMem.sortDesc SemMem.scoreGe _ :=
      List.mem_of_mem_take hmb
    obtain ⟨_, _, hqa, hqpa, hspa, _⟩ := hresch a (hsortmem a hta)
    obtain ⟨_, _, hqb, _, hspb, _⟩ := hresch b (hsortmem b htb)
    exact (SemMem.scoreGe_iff (by rw [hqa, hqb]) hqpa hspa hspb).1 hge
  · intro h hm
    have hms : h ∈ SemMem.sortDesc SemMem.scoreGe _ := List.mem_of_mem_take hm
    obtain ⟨hrmem, hrcand, _, _, _, emb, hemb, hne, hqne⟩ :=
      hresch h (hsortmem h hms)
    exact ⟨hrmem, hrcand, emb, hemb, hne, hqne⟩
  · intro hz
    unfold SemMem.searchByEmbedding
    have : (db.insights.filter (SemMem.isCandidate domain)).filterMap
        (SemMem.scanRow q) = [] := by
      rw [List.filterMap_eq_nil]
      intro r _
      exact SemMem.scanRow_zero hz r
    dsimp only
    rw [this]
    simp [SemMem.sortDesc]
  · intro hk
    have hlen : (SemMem.sortDesc SemMem.scoreGe
        ((db.insights.filter (SemMem.isCandidate domain)).filterMap
          (SemMem.scanRow q))).length = SemMem.usableCount db q domain := by
      rw [(SemMem.sortDesc_perm _ _).length_eq]
      exact SemMem.filterMap_scan_length q _
    constructor
    · unfold SemMem.searchByEmbedding
      dsimp only
      rw [List.length_take, hlen]
      exact Nat.min_eq_right hk
    · intro r hrmem hrcand hru
      have hsome : (SemMem.scanRow q r).isSome = true := by
        rw [SemMem.scanRow_isSome, hru]
      obtain ⟨h, hh⟩ := Option.isSome_iff_exists.1 hsome
      have hmm : h ∈ (db.insights.filter (SemMem.isCandidate domain)).filterMap
          (SemMem.scanRow q) :=
        List.mem_filterMap.2 ⟨r, List.mem_filter.2 ⟨hrmem, hrcand⟩, hh⟩
      have hmsort : h ∈ SemMem.sortDesc SemMem.scoreGe _ :=
        (SemMem.sortDesc_perm _ _).mem_iff.2 hmm
      refine ⟨h, ?_, (SemMem.scanRow_some hh).1⟩
      unfold SemMem.searchByEmbedding
      dsimp only
      rw [List.take_of_length_le (by rw [hlen]; exact hk)]
      exact hmsort

namespace SemMem

/-- Minimal stored payload for the C9 witness rows. -/
def c9Ins : Insight :=
  { text := "axis", normalized_text := "axis", frame := .causal, domains := [],
    entities := [], problems := [], resolutions := [], contexts := [],
    confidence := 1, source := "debug" }

/-- Row with embedding (1, 0, 0). -/
def c9Row1 : InsightRow :=
  { id := "r1", ins := c9Ins, domainsText := "[]", embedding := some [1, 0, 0],
    created_at := "c", updated_at := "c" }

/-- Row with embedding (0, 1, 0). -/
def c9Row2 : InsightRow :=
  { id := "r2", ins := c9Ins, domainsText := "[]", embedding := some [0, 1, 0],
    created_at := "c", updated_at := "c" }

/-- Two-row store of the spec's ranked-search scenario. -/
def c9DB : SemDB :=
  { insights := [c9Row1, c9Row2], subjects := [], insight_subjects := [],
    subject_relations := [], insight_relations := [] }

/-- Query vector (9, 1, 0), the scenario's (0.9, 0.1, 0) rescaled. -/
def c9Q : List ℚ := [9, 1, 0]

theorem c9_usable_eval : usableCount c9DB c9Q none = 2 := by
  have h0 : ¬(normSq c9Q = 0) := by norm_num [normSq, dotQ, c9Q]
  have h1 : ¬(normSq [(1 : ℚ), 0, 0] = 0) := by norm_num [normSq, dotQ]
  have h2 : ¬(normSq [(0 : ℚ), 1, 0] = 0) := by norm_num [normSq, dotQ]
  unfold usableCount
  simp [c9DB, c9Row1, c9Row2, isCandidate, usableEmb, List.filter,
    h0, h1, h2]

end SemMem

/-- C9 witness: searching the two-row store with k = 2 (at least the number
of usable rows) returns exactly the two usable rows. -/
theorem c9_search_by_embedding_contract_witness :
    SemMem.usableCount SemMem.c9DB SemMem.c9Q none ≤ 2
  ∧ (SemMem.searchByEmbedding SemMem.c9DB SemMem.c9Q 2 none).length
      = SemMem.usableCount SemMem.c9DB SemMem.c9Q none :=
  ⟨SemMem.c9_usable_eval ▸ Nat.le_refl 2,
   ((c9_search_by_embedding_contract SemMem.c9DB SemMem.c9Q 2 none).2.2.2.2
     (SemMem.c9_usable_eval ▸ Nat.le_refl 2)).1⟩
